import Mathlib

/-!
A verification development for the bonfire dispatch core
(`src/lib/index.ts`): the route table and its matching algorithm, the
response-context state machine, the middleware chain execution protocol of
`Bonfire.handleRequest`, and the bundled `jsonMiddleware`.

JavaScript data structures are embedded as follows: a `Map` (insertion
ordered, `set` overwrites in place) and a plain object used as a record both
become association lists with the `assocSet` / `assocGet` operations below;
strings are Lean `String`s (JS strings restricted to Unicode scalar
values), with the `split` / `startsWith` / `slice` builtins given explicit
executable definitions over the character list; `JSON.stringify` /
`JSON.parse` are modelled by an executable JSON codec over an inductive
value type with integer numerals.
-/

namespace Bonfire

/-- JS `Map.prototype.set` / object property write on an association list:
overwrite in place if the key is present (keeping its position), else append. -/
def assocSet (m : List (String × α)) (k : String) (v : α) : List (String × α) :=
  if m.any (fun e => e.1 == k) then
    m.map (fun e => if e.1 == k then (k, v) else e)
  else
    m ++ [(k, v)]

/-- JS `Map.prototype.get` / object property read on an association list. -/
def assocGet (m : List (String × α)) (k : String) : Option α :=
  (m.find? (fun e => e.1 == k)).map (fun e => e.2)

theorem find?_overwrite (m : List (String × α)) (k : String) (v : α)
    (h : m.any (fun e => e.1 == k) = true) :
    (m.map (fun e => if e.1 == k then (k, v) else e)).find? (fun e => e.1 == k)
      = some (k, v) := by
  induction m with
  | nil => simp at h
  | cons e rest ih =>
    by_cases he : (e.1 == k) = true
    · simp only [List.map_cons, if_pos he]
      exact List.find?_cons_of_pos _ (by simp)
    · have he' : (e.1 == k) = false := by simpa using he
      have h' : rest.any (fun e => e.1 == k) = true := by
        simpa [List.any_cons, he'] using h
      simp only [List.map_cons, if_neg he]
      rw [List.find?_cons_of_neg _ (by simpa using he')]
      exact ih h'

theorem find?_appended (m : List (String × α)) (k : String) (v : α)
    (h : m.any (fun e => e.1 == k) = false) :
    (m ++ [(k, v)]).find? (fun e => e.1 == k) = some (k, v) := by
  induction m with
  | nil => exact List.find?_cons_of_pos _ (by simp)
  | cons e rest ih =>
    rw [List.any_cons, Bool.or_eq_false_iff] at h
    rw [List.cons_append, List.find?_cons_of_neg _ (by simp [h.1])]
    exact ih h.2

/-- Writing a key then reading it back yields the written value. -/
theorem assocGet_assocSet (m : List (String × α)) (k : String) (v : α) :
    assocGet (assocSet m k v) k = some v := by
  unfold assocSet assocGet
  by_cases h : m.any (fun e => e.1 == k) = true
  · rw [if_pos h, find?_overwrite m k v h]
    rfl
  · rw [if_neg h, find?_appended m k v (Bool.eq_false_iff.mpr h)]
    rfl

/-! ## JS string builtins used by the router

`url.split("/")`, `seg.startsWith(":")` and `seg.slice(1)` are platform
builtins; they are embedded here as executable functions on the character
list (for strings of Unicode scalar values, which is all the routes and
paths this model considers). -/

/-- `String.prototype.split` with the one-character separator `'/'`:
accumulates the current segment (in reverse) and emits it at each
separator; the empty string splits to `[""]`. -/
def splitSegsAux : List Char → List Char → List String
  | [], acc => [String.mk acc.reverse]
  | c :: cs, acc =>
    if c == '/' then String.mk acc.reverse :: splitSegsAux cs []
    else splitSegsAux cs (c :: acc)

/-- JS `path.split("/")`. -/
def splitPath (s : String) : List String := splitSegsAux s.data []

/-- JS `s.startsWith(c)` for a one-character prefix. -/
def startsWithChar (s : String) (c : Char) : Bool :=
  match s.data with
  | x :: _ => x == c
  | [] => false

/-- JS `s.slice(1)`: the string without its first character. -/
def sliceOne (s : String) : String :=
  match s.data with
  | _ :: cs => String.mk cs
  | [] => ""

/-! ## The route table (`Router` in `src/lib/index.ts`)

`routes` is a `Map` from method to a `Map` from route pattern to handler;
the constructor seeds an empty inner map for each of the seven supported
methods. The handler type is left abstract (`H`). -/

def supportedMethods : List String :=
  ["GET", "POST", "PUT", "DELETE", "PATCH", "HEAD", "OPTIONS"]

structure Router (H : Type) where
  routes : List (String × List (String × H))

def Router.empty : Router H :=
  ⟨supportedMethods.map (fun m => (m, []))⟩

/-- `Router.register`: look up the method's map; if present, `set` the
pattern to the handler (silently a no-op for unsupported methods). -/
def Router.register (r : Router H) (method pat : String) (h : H) : Router H :=
  ⟨r.routes.map (fun e => if e.1 == method then (e.1, assocSet e.2 pat h) else e)⟩

/-- The pairwise segment walk of `Router.match`'s inner `for` loop: a
segment starting with `":"` always matches and records
`params[seg.slice(1)] = urlSeg`; any other segment must equal the url
segment exactly, else the candidate is rejected. -/
def walkSegs : List String → List String → List (String × String) →
    Option (List (String × String))
  | [], [], ps => some ps
  | rp :: rps, up :: ups, ps =>
    if startsWithChar rp ':' then walkSegs rps ups (assocSet ps (sliceOne rp) up)
    else if rp == up then walkSegs rps ups ps
    else none
  | _, _, _ => none

/-- The `for (const [routePath, handler] of methodRoutes)` loop of
`Router.match`: skip patterns whose segment count differs, return the first
pattern whose walk succeeds. -/
def matchLoop (entries : List (String × H)) (urlParts : List String) :
    Option H × List (String × String) :=
  match entries with
  | [] => (none, [])
  | (routePath, handler) :: rest =>
    if (splitPath routePath).length != urlParts.length then matchLoop rest urlParts
    else
      match walkSegs (splitPath routePath) urlParts [] with
      | some params => (some handler, params)
      | none => matchLoop rest urlParts

/-- `Router.match(method, url)`: an `undefined` method map yields no match;
otherwise run the registration-order loop over the url split on `"/"`. -/
def Router.match (r : Router H) (method url : String) :
    Option H × List (String × String) :=
  match assocGet r.routes method with
  | none => (none, [])
  | some entries => matchLoop entries (splitPath url)

/-! ## The declarative matching specification (C1)

These definitions follow the spec's words, not the code: a pattern matches a
path iff the segment counts agree and, pairwise, every literal segment
equals the path segment exactly while parameter segments always match; the
bindings map each parameter name to the path segment at its position; the
first matching pattern in registration order wins. -/

/-- One segment pair agrees: a parameter segment always matches, a literal
segment must be exactly equal (case-sensitive). -/
def segAgrees (rp up : String) : Bool :=
  startsWithChar rp ':' || rp == up

/-- A pattern matches a path: equal segment counts and all pairs agree. -/
def patMatches (pat url : String) : Bool :=
  (splitPath pat).length == (splitPath url).length &&
    ((splitPath pat).zip (splitPath url)).all (fun e => segAgrees e.1 e.2)

/-- The bindings a matching pattern produces: each parameter name (the
segment minus its `":"` sentinel) bound to the path segment at its position,
later duplicates overwriting earlier ones. -/
def patBindings (pat url : String) : List (String × String) :=
  ((splitPath pat).zip (splitPath url)).foldl
    (fun ps e => if startsWithChar e.1 ':' then assocSet ps (sliceOne e.1) e.2 else ps) []

/-- The spec's algorithm: the first registered pattern that matches wins,
returning its handler and exactly its bindings; otherwise "no match". -/
def specFirstMatch (entries : List (String × H)) (url : String) :
    Option H × List (String × String) :=
  match entries.find? (fun e => patMatches e.1 url) with
  | some e => (some e.2, patBindings e.1 url)
  | none => (none, [])

/-- The spec's `match` contract, assembled: unsupported method means no
match, else first-match-wins over the method's registration-order entries. -/
def specMatch (r : Router H) (method url : String) :
    Option H × List (String × String) :=
  match assocGet r.routes method with
  | none => (none, [])
  | some entries => specFirstMatch entries url

theorem walkSegs_eq (rps : List String) : ∀ (ups : List String)
    (ps : List (String × String)),
    walkSegs rps ups ps =
      if rps.length == ups.length &&
          (rps.zip ups).all (fun e => segAgrees e.1 e.2) then
        some ((rps.zip ups).foldl
          (fun acc e =>
            if startsWithChar e.1 ':' then assocSet acc (sliceOne e.1) e.2 else acc) ps)
      else none := by
  induction rps with
  | nil =>
    intro ups ps
    cases ups with
    | nil => simp [walkSegs]
    | cons u us => simp [walkSegs]
  | cons rp rps ih =>
    intro ups ps
    cases ups with
    | nil => simp [walkSegs]
    | cons u us =>
      have hlen : ((rps.length + 1 == us.length + 1)) = (rps.length == us.length) := by
        simp
      by_cases hp : startsWithChar rp ':'
      · have ha : segAgrees rp u = true := by simp [segAgrees, hp]
        simp only [walkSegs, if_pos hp, ih, List.zip_cons_cons, List.all_cons, ha,
          Bool.true_and, List.length_cons, List.foldl_cons, hp, if_pos, hlen]
      · by_cases he : (rp == u) = true
        · have ha : segAgrees rp u = true := by simp [segAgrees, he]
          simp only [walkSegs, Bool.not_eq_true] at hp
          simp only [walkSegs, hp, Bool.false_eq_true, if_false, if_pos he, ih,
            List.zip_cons_cons, List.all_cons, ha, Bool.true_and, List.length_cons,
            List.foldl_cons, hlen]
        · have ha : segAgrees rp u = false := by
            simp only [segAgrees, Bool.or_eq_false_iff]
            exact ⟨by simpa using hp, by simpa using he⟩
          simp only [Bool.not_eq_true] at hp he
          simp only [walkSegs, hp, Bool.false_eq_true, if_false, he, List.zip_cons_cons,
            List.all_cons, ha, Bool.false_and, Bool.and_false, if_neg (Bool.false_ne_true)]

theorem matchLoop_eq_specFirstMatch (entries : List (String × H)) (url : String) :
    matchLoop entries (splitPath url) = specFirstMatch entries url := by
  induction entries with
  | nil => rfl
  | cons e rest ih =>
    obtain ⟨routePath, handler⟩ := e
    simp only [matchLoop, specFirstMatch]
    cases hm : patMatches routePath url with
    | true =>
      have hparts := hm
      simp only [patMatches, Bool.and_eq_true] at hparts
      obtain ⟨hlen, hall⟩ := hparts
      rw [List.find?_cons_of_pos _ (by exact hm)]
      have hne : ((splitPath routePath).length != (splitPath url).length) = false := by
        simp [bne, hlen]
      rw [if_neg (by simp [hne]), walkSegs_eq, if_pos (by simp [hlen, hall])]
      rfl
    | false =>
      rw [List.find?_cons_of_neg _ (by simp [hm])]
      by_cases hlen : ((splitPath routePath).length == (splitPath url).length) = true
      · have hall :
            (((splitPath routePath).zip (splitPath url)).all
              (fun e => segAgrees e.1 e.2)) = false := by
          cases ha : ((splitPath routePath).zip (splitPath url)).all
              (fun e => segAgrees e.1 e.2) with
          | false => rfl
          | true =>
            exfalso
            have : patMatches routePath url = true := by
              simp only [patMatches, Bool.and_eq_true]
              exact ⟨hlen, ha⟩
            rw [this] at hm
            exact Bool.noConfusion hm
        have hne : ((splitPath routePath).length != (splitPath url).length) = false := by
          simp [bne, hlen]
        rw [if_neg (by simp [hne]), walkSegs_eq, if_neg (by simp [hall])]
        exact ih
      · have hne : ((splitPath routePath).length != (splitPath url).length) = true := by
          simp only [bne]
          simpa using hlen
        rw [if_pos (by simp [hne])]
        exact ih

/-- **C1.** `Router.match` implements exactly the spec's matching
algorithm: split the path on `"/"`, iterate the method's patterns in
registration order, skip those of differing segment count, accept the first
whose literal segments equal the path segments exactly while parameter
segments always match and bind, returning that handler with exactly those
bindings, and "no match" otherwise. In particular, of two registered
patterns that both match a path, the earlier-registered one wins (the
`List.find?` in `specFirstMatch` scans in registration order). -/
theorem match_eq_specMatch (r : Router H) (method url : String) :
    r.match method url = specMatch r method url := by
  unfold Router.match specMatch
  cases assocGet r.routes method with
  | none => rfl
  | some entries => exact matchLoop_eq_specFirstMatch entries url

/-! ## Duplicate registration (C9) -/

/-- Writing the same key twice into a JS map: only the last write remains. -/
theorem assocSet_assocSet (l : List (String × α)) (k : String) (v1 v2 : α) :
    assocSet (assocSet l k v1) k v2 = assocSet l k v2 := by
  unfold assocSet
  by_cases h : l.any (fun e => e.1 == k) = true
  · have hany :
        ((l.map (fun e => if e.1 == k then (k, v1) else e)).any
          (fun e => e.1 == k)) = true := by
      rw [List.any_map, List.any_eq_true]
      rw [List.any_eq_true] at h
      obtain ⟨e, he, hk⟩ := h
      have hek : e.1 = k := by simpa using hk
      exact ⟨e, he, by simp [Function.comp, hek]⟩
    rw [if_pos h, if_pos hany, if_pos h, List.map_map]
    apply List.map_congr_left
    intro e _
    by_cases hek : e.1 = k
    · simp [Function.comp, hek]
    · simp [Function.comp, hek]
  · have h' : l.any (fun e => e.1 == k) = false := Bool.eq_false_iff.mpr h
    have hany : ((l ++ [(k, v1)]).any (fun e => e.1 == k)) = true := by
      rw [List.any_append]
      simp
    rw [if_neg h, if_pos hany, if_neg h, List.map_append]
    have hl : l.map (fun e => if e.1 == k then (k, v2) else e) = l := by
      conv_rhs => rw [← List.map_id l]
      apply List.map_congr_left
      intro e he
      have hne : ¬ (e.1 == k) = true := List.any_eq_false.mp h' e he
      rw [if_neg hne]
      rfl
    rw [hl]
    simp

theorem register_register (r : Router H) (m p : String) (h1 h2 : H) :
    (r.register m p h1).register m p h2 = r.register m p h2 := by
  unfold Router.register
  simp only [List.map_map]
  apply congrArg Router.mk
  apply List.map_congr_left
  intro e _
  by_cases hem : (e.1 == m) = true
  · simp only [Function.comp, if_pos hem, hem, if_pos, assocSet_assocSet]
  · simp only [Function.comp, if_neg hem]

/-- **C9.** Registering the identical (method, pattern) pair twice raises no
error (registration is total) and replaces the prior handler: the doubly
registered router is the same router as one with only the last
registration, so every subsequent `match` that selects that pattern returns
the handler from the last registration. -/
theorem duplicate_registration_replaces (r : Router H) (m p : String) (h1 h2 : H) :
    (r.register m p h1).register m p h2 = r.register m p h2 ∧
    ∀ method url, ((r.register m p h1).register m p h2).match method url
      = (r.register m p h2).match method url := by
  refine ⟨register_register r m p h1 h2, fun method url => ?_⟩
  rw [register_register r m p h1 h2]

/-! ## Parameter segments accept the empty segment (C10) -/

/-- `walkSegs` succeeds exactly when the segment counts agree and every
pair of segments agrees. -/
theorem walkSegs_isSome (rps ups : List String) (ps : List (String × String)) :
    (walkSegs rps ups ps).isSome =
      (rps.length == ups.length && (rps.zip ups).all (fun e => segAgrees e.1 e.2)) := by
  rw [walkSegs_eq]
  by_cases h : (rps.length == ups.length &&
      (rps.zip ups).all (fun e => segAgrees e.1 e.2)) = true
  · rw [if_pos h, h, Option.isSome_some]
  · rw [if_neg h]
    have := Bool.eq_false_iff.mpr h
    rw [this, Option.isSome_none]

theorem walkSegs_set_param : ∀ (rps ups : List String) (i : Nat) (x : String)
    (_ : rps.length = ups.length) (hi : i < rps.length),
    startsWithChar (rps.get ⟨i, hi⟩) ':' = true →
    (walkSegs rps ups []).isSome = true →
    (walkSegs rps (ups.set i x) []).isSome = true := by
  intro rps ups i x hlen hi hp hs
  rw [walkSegs_isSome] at hs ⊢
  rw [Bool.and_eq_true] at hs ⊢
  obtain ⟨hl, hall⟩ := hs
  refine ⟨by simp [List.length_set]; simpa using hl, ?_⟩
  rw [List.all_eq_true] at hall ⊢
  intro e he
  rw [List.mem_iff_getElem] at he
  obtain ⟨j, hj, hje⟩ := he
  have hjr : j < rps.length := by
    rw [List.length_zip, List.length_set] at hj
    omega
  have hju : j < ups.length := hlen ▸ hjr
  have hju2 : j < (ups.set i x).length := by simpa [List.length_set] using hju
  have hze : e = (rps[j], (ups.set i x)[j]) := by
    rw [← hje]
    exact List.getElem_zip
  subst hze
  by_cases hij : i = j
  · subst hij
    have hset : (ups.set i x)[i] = x := List.getElem_set_self _
    rw [hset]
    have : startsWithChar rps[i] ':' = true := by simpa using hp
    simp [segAgrees, this]
  · have hset : (ups.set i x)[j] = ups[j] := List.getElem_set_ne hij _
    rw [hset]
    apply hall
    rw [List.mem_iff_getElem]
    refine ⟨j, by rw [List.length_zip]; omega, ?_⟩
    exact List.getElem_zip

/-- **C10.** A parameter position never rejects a path segment, in
particular not the empty one: replacing the path segment at a parameter
position of any matching walk by `""` still matches (the parameter binds
`""`); concretely, the registered pattern `/users/:id` matches the path
`/users/` — three segments each — with `id` bound to the empty string. -/
theorem param_accepts_empty_segment (H : Type) (hdl : H) (rps ups : List String)
    (i : Nat) (hlen : rps.length = ups.length) (hi : i < rps.length)
    (hp : startsWithChar (rps.get ⟨i, hi⟩) ':' = true)
    (hs : (walkSegs rps ups []).isSome = true) :
    (walkSegs rps (ups.set i "") []).isSome = true ∧
    (Router.empty.register "GET" "/users/:id" hdl).match "GET" "/users/"
      = (some hdl, [("id", "")]) := by
  refine ⟨walkSegs_set_param rps ups i "" hlen hi hp hs, ?_⟩
  rfl

/-- Witness for C10: the walk for `/users/:id` against `/users/42` stays
successful when the `:id` segment becomes empty, and the registered
pattern `/users/:id` matches `/users/` with `id` bound to `""`. -/
theorem param_accepts_empty_segment_witness :
    (walkSegs ["", "users", ":id"] ((["", "users", "42"]).set 2 "") []).isSome
        = true ∧
    (Router.empty.register "GET" "/users/:id" (0 : Nat)).match "GET" "/users/"
      = (some 0, [("id", "")]) :=
  param_accepts_empty_segment Nat 0 ["", "users", ":id"] ["", "users", "42"] 2
    (by decide) (by decide) (by decide) (by decide)

/-! ## The JSON codec

Modelled from the spec: the platform builtins `JSON.stringify` and
`JSON.parse` used by `responseContext.json` and `jsonMiddleware` are not
part of the repository; they are embedded here as an executable codec over
an inductive JSON value type, restricted to integer numerals,
whitespace-free texts and strings of Unicode scalar values. `stringify`
emits the canonical compact encoding (`{"a":1}` style, double-quote string
literals with `\"`, `\\`, `\b`, `\t`, `\n`, `\f`, `\r` and `\u00XX` escapes
for the remaining control characters); `parse` is a recursive-descent
reader of that grammar returning `none` on malformed input. -/

inductive Json where
  | null
  | bool (b : Bool)
  | num (n : Int)
  | str (s : String)
  | arr (elems : List Json)
  | obj (fields : List (String × Json))

/-- The decimal digit character for `k < 10`. -/
def digitChar (k : Nat) : Char := Char.ofNat (48 + k)

/-- Decimal digits of `n`, most significant first; structural on a fuel
argument so that the kernel can evaluate it (`fuel > n` suffices). -/
def natDigitsF : Nat → Nat → List Char
  | 0, _ => []
  | fuel + 1, n =>
    if n < 10 then [digitChar n]
    else natDigitsF fuel (n / 10) ++ [digitChar (n % 10)]

/-- Decimal digits of `n`, most significant first. -/
def natDigits (n : Nat) : List Char := natDigitsF (n + 1) n

/-- The decimal rendering of an integer (JS `String(n)` for integral `n`). -/
def intChars (i : Int) : List Char :=
  if i < 0 then '-' :: natDigits i.natAbs else natDigits i.natAbs

/-- The lowercase hexadecimal digit character for `k < 16`. -/
def hexDigitCh (k : Nat) : Char :=
  if k < 10 then Char.ofNat (48 + k) else Char.ofNat (87 + k)

/-- One character of a JSON string literal body, escaped as
`JSON.stringify` escapes it. -/
def escChar (c : Char) : List Char :=
  if c == '"' then ['\\', '"']
  else if c == '\\' then ['\\', '\\']
  else if c == '\n' then ['\\', 'n']
  else if c == '\t' then ['\\', 't']
  else if c == '\r' then ['\\', 'r']
  else if c == Char.ofNat 8 then ['\\', 'b']
  else if c == Char.ofNat 12 then ['\\', 'f']
  else if c.toNat < 32 then
    ['\\', 'u', '0', '0', hexDigitCh (c.toNat / 16), hexDigitCh (c.toNat % 16)]
  else [c]

/-- A JSON string literal: opening quote, escaped body, closing quote. -/
def quoteChars (s : String) : List Char :=
  '"' :: s.data.foldr (fun c acc => escChar c ++ acc) ['"']

mutual

/-- `JSON.stringify`, producing the character list of the encoding. -/
def jsonChars : Json → List Char
  | .null => "null".data
  | .bool true => "true".data
  | .bool false => "false".data
  | .num n => intChars n
  | .str s => quoteChars s
  | .arr es => '[' :: (elemsChars es ++ [']'])
  | .obj fs => '{' :: (fieldsChars fs ++ ['}'])

/-- Comma-separated encodings of array elements. -/
def elemsChars : List Json → List Char
  | [] => []
  | [v] => jsonChars v
  | v :: v2 :: rest => jsonChars v ++ ',' :: elemsChars (v2 :: rest)

/-- Comma-separated `"key":value` encodings of object fields. -/
def fieldsChars : List (String × Json) → List Char
  | [] => []
  | [(k, v)] => quoteChars k ++ ':' :: jsonChars v
  | (k, v) :: f2 :: rest =>
    quoteChars k ++ ':' :: jsonChars v ++ ',' :: fieldsChars (f2 :: rest)

end

/-- `JSON.stringify` as a string. -/
def Json.stringify (v : Json) : String := String.mk (jsonChars v)

/-- Is `c` a decimal digit character? -/
def isDig (c : Char) : Bool := 48 ≤ c.toNat && c.toNat ≤ 57

/-- The value of a hexadecimal digit character. -/
def hexVal (c : Char) : Option Nat :=
  if 48 ≤ c.toNat && c.toNat ≤ 57 then some (c.toNat - 48)
  else if 97 ≤ c.toNat && c.toNat ≤ 102 then some (c.toNat - 87)
  else if 65 ≤ c.toNat && c.toNat ≤ 70 then some (c.toNat - 55)
  else none

/-- The table of two-character escapes: escape letter, denoted character. -/
def escTable : List (Char × Char) :=
  [('"', '"'), ('\\', '\\'), ('/', '/'), ('n', '\n'), ('t', '\t'),
   ('r', '\r'), ('b', Char.ofNat 8), ('f', Char.ofNat 12)]

/-- The character a two-character escape stands for. -/
def unescChar (c : Char) : Option Char :=
  (escTable.find? (fun p => p.1 == c)).map (fun p => p.2)

/-- Read a JSON string literal body up to its closing quote, unescaping;
`acc` holds the characters read so far, in reverse. -/
def readString (acc : List Char) : List Char → Option (String × List Char)
  | '"' :: rest => some (String.mk acc.reverse, rest)
  | '\\' :: 'u' :: h1 :: h2 :: h3 :: h4 :: rest =>
    match hexVal h1, hexVal h2, hexVal h3, hexVal h4 with
    | some a, some b, some c, some d =>
      readString (Char.ofNat (((a * 16 + b) * 16 + c) * 16 + d) :: acc) rest
    | _, _, _, _ => none
  | '\\' :: e :: rest =>
    match unescChar e with
    | some c => readString (c :: acc) rest
    | none => none
  | c :: rest => readString (c :: acc) rest
  | [] => none

/-- Split a leading run of decimal digits off the input. -/
def takeDigs : List Char → List Char × List Char
  | c :: cs =>
    if isDig c then
      let r := takeDigs cs
      (c :: r.1, r.2)
    else ([], c :: cs)
  | [] => ([], [])

/-- The numeric value of a digit run. -/
def digsVal (ds : List Char) : Nat :=
  ds.foldl (fun a c => a * 10 + (c.toNat - 48)) 0

/-- Read a JSON integer numeral: an optional minus sign and a nonempty
digit run. -/
def readNum : List Char → Option (Json × List Char)
  | '-' :: cs =>
    let r := takeDigs cs
    if r.1.isEmpty then none else some (.num (-(digsVal r.1 : Int)), r.2)
  | cs =>
    let r := takeDigs cs
    if r.1.isEmpty then none else some (.num (digsVal r.1), r.2)

mutual

/-- Read one JSON value; structural on a fuel argument (any fuel above the
input length suffices). -/
def readVal : Nat → List Char → Option (Json × List Char)
  | 0, _ => none
  | fuel + 1, cs =>
    match cs with
    | 'n' :: 'u' :: 'l' :: 'l' :: rest => some (.null, rest)
    | 't' :: 'r' :: 'u' :: 'e' :: rest => some (.bool true, rest)
    | 'f' :: 'a' :: 'l' :: 's' :: 'e' :: rest => some (.bool false, rest)
    | '"' :: rest =>
      match readString [] rest with
      | some (s, r) => some (.str s, r)
      | none => none
    | '[' :: rest =>
      match rest with
      | ']' :: r => some (.arr [], r)
      | _ =>
        match readItems fuel rest with
        | some (vs, r) => some (.arr vs, r)
        | none => none
    | '{' :: rest =>
      match rest with
      | '}' :: r => some (.obj [], r)
      | _ =>
        match readFields fuel rest with
        | some (fs, r) => some (.obj fs, r)
        | none => none
    | c :: rest =>
      if c == '-' || isDig c then readNum (c :: rest) else none
    | [] => none

/-- Read one or more comma-separated values up to a closing bracket. -/
def readItems : Nat → List Char → Option (List Json × List Char)
  | 0, _ => none
  | fuel + 1, cs =>
    match readVal fuel cs with
    | some (v, r) =>
      match r with
      | ',' :: r2 =>
        match readItems fuel r2 with
        | some (vs, r3) => some (v :: vs, r3)
        | none => none
      | ']' :: r2 => some ([v], r2)
      | _ => none
    | none => none

/-- Read one or more comma-separated `"key":value` fields up to a closing
brace. -/
def readFields : Nat → List Char → Option (List (String × Json) × List Char)
  | 0, _ => none
  | fuel + 1, cs =>
    match cs with
    | '"' :: rest =>
      match readString [] rest with
      | some (k, r1) =>
        match r1 with
        | ':' :: r2 =>
          match readVal fuel r2 with
          | some (v, r3) =>
            match r3 with
            | ',' :: r4 =>
              match readFields fuel r4 with
              | some (fs, r5) => some ((k, v) :: fs, r5)
              | none => none
            | '}' :: r4 => some ([(k, v)], r4)
            | _ => none
          | none => none
        | _ => none
      | none => none
    | _ => none

end

/-- `JSON.parse`: read one value and require the input to be consumed
entirely; `none` models the `SyntaxError` throw. -/
def Json.parse (s : String) : Option Json :=
  match readVal (s.data.length + 1) s.data with
  | some (v, []) => some v
  | _ => none

/-- Input that cannot extend a digit run: empty, or headed by a non-digit. -/
def notDigitStart : List Char → Bool
  | [] => true
  | c :: _ => !(isDig c)

/-! ### Decimal digits invert -/

theorem natDigitsF_stable (n : Nat) : ∀ (f g : Nat), n < f → n < g →
    natDigitsF f n = natDigitsF g n := by
  induction n using Nat.strong_induction_on with
  | _ n ih =>
    intro f g hf hg
    match f, hf with
    | f + 1, _ =>
      match g, hg with
      | g + 1, _ =>
        simp only [natDigitsF]
        by_cases h : n < 10
        · simp [h]
        · have hdiv : n / 10 < n := Nat.div_lt_self (by omega) (by omega)
          rw [if_neg h, if_neg h, ih (n / 10) hdiv (f) (g) (by omega) (by omega)]

theorem natDigits_unfold (n : Nat) :
    natDigits n =
      if n < 10 then [digitChar n]
      else natDigits (n / 10) ++ [digitChar (n % 10)] := by
  show natDigitsF (n + 1) n = _
  simp only [natDigitsF]
  by_cases h : n < 10
  · simp [h]
  · have hdiv : n / 10 < n := Nat.div_lt_self (by omega) (by omega)
    rw [if_neg h, if_neg h,
      natDigitsF_stable (n / 10) n (n / 10 + 1) (by omega) (by omega)]
    rfl

theorem digitChar_spec (k : Nat) (h : k < 10) :
    (digitChar k).toNat = 48 + k ∧ isDig (digitChar k) = true := by
  interval_cases k <;> decide

theorem natDigits_all_dig (n : Nat) : ∀ c ∈ natDigits n, isDig c = true := by
  induction n using Nat.strong_induction_on with
  | _ n ih =>
    rw [natDigits_unfold]
    intro c hc
    by_cases h : n < 10
    · rw [if_pos h, List.mem_singleton] at hc
      subst hc
      exact (digitChar_spec n h).2
    · rw [if_neg h, List.mem_append] at hc
      cases hc with
      | inl hm =>
        have hdiv : n / 10 < n := Nat.div_lt_self (by omega) (by omega)
        exact ih (n / 10) hdiv c hm
      | inr hm =>
        rw [List.mem_singleton] at hm
        subst hm
        exact (digitChar_spec (n % 10) (Nat.mod_lt _ (by omega))).2

theorem natDigits_ne_nil (n : Nat) : natDigits n ≠ [] := by
  rw [natDigits_unfold]
  by_cases h : n < 10
  · simp [h]
  · simp [h]

theorem natDigits_head (n : Nat) :
    ∃ c t, natDigits n = c :: t ∧ isDig c = true := by
  match h : natDigits n with
  | [] => exact absurd h (natDigits_ne_nil n)
  | c :: t =>
    refine ⟨c, t, rfl, ?_⟩
    exact natDigits_all_dig n c (h ▸ List.mem_cons_self c t)

theorem digsVal_natDigits (n : Nat) : digsVal (natDigits n) = n := by
  induction n using Nat.strong_induction_on with
  | _ n ih =>
    rw [natDigits_unfold]
    by_cases h : n < 10
    · rw [if_pos h]
      show (0 * 10 + ((digitChar n).toNat - 48)) = n
      rw [(digitChar_spec n h).1]
      omega
    · have hdiv : n / 10 < n := Nat.div_lt_self (by omega) (by omega)
      rw [if_neg h]
      show List.foldl _ 0 (natDigits (n / 10) ++ [digitChar (n % 10)]) = n
      rw [List.foldl_append]
      have hleft : List.foldl (fun a c => a * 10 + (c.toNat - 48)) 0 (natDigits (n / 10))
          = n / 10 := ih (n / 10) hdiv
      rw [hleft]
      show (n / 10) * 10 + ((digitChar (n % 10)).toNat - 48) = n
      rw [(digitChar_spec (n % 10) (Nat.mod_lt _ (by omega))).1]
      omega

/-! ### Digit runs -/

theorem takeDigs_stop (rest : List Char) (h : notDigitStart rest = true) :
    takeDigs rest = ([], rest) := by
  match rest, h with
  | [], _ => rfl
  | c :: t, h =>
    have hc : isDig c = false := by simpa [notDigitStart] using h
    simp [takeDigs, hc]

theorem takeDigs_run (ds : List Char) (hds : ∀ c ∈ ds, isDig c = true) :
    ∀ rest : List Char, takeDigs rest = ([], rest) →
    takeDigs (ds ++ rest) = (ds, rest) := by
  induction ds with
  | nil => intro rest h; simpa using h
  | cons c t ih =>
    intro rest h
    have hc : isDig c = true := hds c (List.mem_cons_self c t)
    have ht := ih (fun x hx => hds x (List.mem_cons_of_mem c hx)) rest h
    simp [takeDigs, hc, ht]

theorem isDig_bounds {c : Char} (h : isDig c = true) :
    48 ≤ c.toNat ∧ c.toNat ≤ 57 := by
  rw [isDig, Bool.and_eq_true, decide_eq_true_eq, decide_eq_true_eq] at h
  exact h

theorem dig_ne_delims {c : Char} (h : isDig c = true) :
    c ≠ '-' ∧ c ≠ 'n' ∧ c ≠ 't' ∧ c ≠ 'f' ∧ c ≠ '"' ∧ c ≠ '[' ∧ c ≠ '{' ∧
    c ≠ ']' ∧ c ≠ '}' ∧ c ≠ ',' ∧ c ≠ ':' := by
  refine ⟨?_, ?_, ?_, ?_, ?_, ?_, ?_, ?_, ?_, ?_, ?_⟩ <;>
    (intro hc; subst hc; exact absurd h (by decide))

/-! ### Integer numerals invert -/

theorem readNum_skip_minus (c : Char) (t : List Char) (hc : c ≠ '-') :
    readNum (c :: t) =
      (if (takeDigs (c :: t)).1.isEmpty then none
       else some (.num ((digsVal (takeDigs (c :: t)).1 : Nat) : Int),
         (takeDigs (c :: t)).2)) := by
  rw [readNum.eq_def]
  simp [hc]

theorem readNum_intChars (i : Int) (rest : List Char)
    (hr : notDigitStart rest = true) :
    readNum (intChars i ++ rest) = some (.num i, rest) := by
  by_cases hi : i < 0
  · rw [intChars, if_pos hi, List.cons_append]
    show readNum ('-' :: (natDigits i.natAbs ++ rest)) = _
    rw [readNum]
    rw [takeDigs_run (natDigits i.natAbs) (natDigits_all_dig _) rest
      (takeDigs_stop rest hr)]
    have hne : (natDigits i.natAbs).isEmpty = false := by
      cases h : natDigits i.natAbs with
      | nil => exact absurd h (natDigits_ne_nil _)
      | cons c t => rfl
    rw [digsVal_natDigits]
    simp only [hne, Bool.false_eq_true, if_false]
    have : -(i.natAbs : Int) = i := by omega
    rw [this]
  · rw [intChars, if_neg hi]
    obtain ⟨c, t, hct, hc⟩ := natDigits_head i.natAbs
    rw [hct, List.cons_append, readNum_skip_minus c (t ++ rest) (dig_ne_delims hc).1,
      ← List.cons_append, ← hct]
    rw [takeDigs_run (natDigits i.natAbs) (natDigits_all_dig _) rest
      (takeDigs_stop rest hr)]
    have hne : (natDigits i.natAbs).isEmpty = false := by
      cases h : natDigits i.natAbs with
      | nil => exact absurd h (natDigits_ne_nil _)
      | cons c t => rfl
    rw [digsVal_natDigits]
    simp only [hne, Bool.false_eq_true, if_false]
    have : (i.natAbs : Int) = i := by omega
    rw [this]

/-! ### String escapes invert -/

theorem hexVal_hexDigitCh (k : Nat) (h : k < 16) :
    hexVal (hexDigitCh k) = some k := by
  interval_cases k <;> decide

theorem readString_escChar (c : Char) (acc rest : List Char) :
    readString acc (escChar c ++ rest) = readString (c :: acc) rest := by
  rw [escChar]
  by_cases h1 : c == '"'
  · have : c = '"' := by simpa using h1
    subst this
    rfl
  rw [if_neg h1]
  by_cases h2 : c == '\\'
  · have : c = '\\' := by simpa using h2
    subst this
    rfl
  rw [if_neg h2]
  by_cases h3 : c == '\n'
  · have : c = '\n' := by simpa using h3
    subst this
    rfl
  rw [if_neg h3]
  by_cases h4 : c == '\t'
  · have : c = '\t' := by simpa using h4
    subst this
    rfl
  rw [if_neg h4]
  by_cases h5 : c == '\r'
  · have : c = '\r' := by simpa using h5
    subst this
    rfl
  rw [if_neg h5]
  by_cases h6 : c == Char.ofNat 8
  · have : c = Char.ofNat 8 := by simpa using h6
    subst this
    rfl
  rw [if_neg h6]
  by_cases h7 : c == Char.ofNat 12
  · have : c = Char.ofNat 12 := by simpa using h7
    subst this
    rfl
  rw [if_neg h7]
  by_cases h8 : c.toNat < 32
  · rw [if_pos h8]
    show readString acc
      ('\\' :: 'u' :: '0' :: '0' :: hexDigitCh (c.toNat / 16) ::
        hexDigitCh (c.toNat % 16) :: rest) = _
    rw [readString]
    rw [show hexVal '0' = some 0 from by decide,
      hexVal_hexDigitCh (c.toNat / 16) (by omega),
      hexVal_hexDigitCh (c.toNat % 16) (by omega)]
    show readString (Char.ofNat (((0 * 16 + 0) * 16 + c.toNat / 16) * 16 +
      c.toNat % 16) :: acc) rest = _
    have harith : ((0 * 16 + 0) * 16 + c.toNat / 16) * 16 + c.toNat % 16
        = c.toNat := by omega
    rw [harith, Char.ofNat_toNat]
  · rw [if_neg h8, List.cons_append, List.nil_append]
    have hq : c ≠ '"' := by simpa using h1
    have hb : c ≠ '\\' := by simpa using h2
    rw [readString.eq_def]
    simp [hq, hb]

theorem escFoldr_append (cs : List Char) (i j : List Char) :
    (cs.foldr (fun c acc => escChar c ++ acc) i) ++ j =
      cs.foldr (fun c acc => escChar c ++ acc) (i ++ j) := by
  induction cs with
  | nil => rfl
  | cons c t ih => simp only [List.foldr_cons, List.append_assoc, ih]

theorem readString_quoted (cs : List Char) : ∀ (acc rest : List Char),
    readString acc (cs.foldr (fun c a => escChar c ++ a) ('"' :: rest)) =
      some (String.mk (acc.reverse ++ cs), rest) := by
  induction cs with
  | nil =>
    intro acc rest
    simp [readString]
  | cons c t ih =>
    intro acc rest
    rw [List.foldr_cons, readString_escChar, ih]
    simp

/-- Reading a rendered string literal body recovers the string. -/
theorem readString_quoteChars (s : String) (rest : List Char) :
    readString [] (s.data.foldr (fun c a => escChar c ++ a) ('"' :: rest)) =
      some (s, rest) := by
  rw [readString_quoted]
  rfl

/-! ### The reader inverts the renderer -/

theorem intChars_head (i : Int) :
    ∃ c t, intChars i = c :: t ∧ (c == '-' || isDig c) = true ∧
      c ≠ 'n' ∧ c ≠ 't' ∧ c ≠ 'f' ∧ c ≠ '"' ∧ c ≠ '[' ∧ c ≠ '{' ∧
      c ≠ ']' ∧ c ≠ '}' := by
  by_cases hi : i < 0
  · refine ⟨'-', natDigits i.natAbs, ?_, by decide, by decide, by decide, by decide,
      by decide, by decide, by decide, by decide, by decide⟩
    rw [intChars, if_pos hi]
  · obtain ⟨c, t, hct, hc⟩ := natDigits_head i.natAbs
    obtain ⟨h1, h2, h3, h4, h5, h6, h7, h8, h9, h10, h11⟩ := dig_ne_delims hc
    refine ⟨c, t, ?_, by rw [hc, Bool.or_true], h2, h3, h4, h5, h6, h7, h8, h9⟩
    rw [intChars, if_neg hi, hct]

theorem jsonChars_head (v : Json) :
    ∃ c t, jsonChars v = c :: t ∧ c ≠ ']' ∧ c ≠ '}' := by
  cases v with
  | null => exact ⟨'n', _, rfl, by decide, by decide⟩
  | bool b =>
    cases b with
    | true => exact ⟨'t', _, rfl, by decide, by decide⟩
    | false => exact ⟨'f', _, rfl, by decide, by decide⟩
  | num n =>
    obtain ⟨c, t, hct, _, _, _, _, _, _, _, hrb, hcb⟩ := intChars_head n
    exact ⟨c, t, hct, hrb, hcb⟩
  | str s => exact ⟨'"', _, rfl, by decide, by decide⟩
  | arr es => exact ⟨'[', _, rfl, by decide, by decide⟩
  | obj fs => exact ⟨'{', _, rfl, by decide, by decide⟩

theorem elemsChars_head (v : Json) (vs : List Json) :
    ∃ c t, elemsChars (v :: vs) = c :: t ∧ c ≠ ']' ∧ c ≠ '}' := by
  obtain ⟨c, t, hct, h1, h2⟩ := jsonChars_head v
  cases vs with
  | nil => exact ⟨c, t, by rw [show elemsChars [v] = jsonChars v from rfl, hct], h1, h2⟩
  | cons v2 vs2 =>
    refine ⟨c, t ++ ',' :: elemsChars (v2 :: vs2), ?_, h1, h2⟩
    rw [show elemsChars (v :: v2 :: vs2)
        = jsonChars v ++ ',' :: elemsChars (v2 :: vs2) from rfl, hct]
    rfl

theorem readVal_num_dispatch (fuel : Nat) (c : Char) (t : List Char)
    (hn : c ≠ 'n') (ht : c ≠ 't') (hf : c ≠ 'f') (hq : c ≠ '"')
    (hlb : c ≠ '[') (hob : c ≠ '{') (hd : (c == '-' || isDig c) = true) :
    readVal (fuel + 1) (c :: t) = readNum (c :: t) := by
  rw [readVal.eq_def]
  simp [hn, ht, hf, hq, hlb, hob, hd]

theorem readVal_arr_dispatch (fuel : Nat) (c : Char) (t : List Char)
    (hc : c ≠ ']') :
    readVal (fuel + 1) ('[' :: c :: t) =
      (match readItems fuel (c :: t) with
       | some (vs, r) => some (.arr vs, r)
       | none => none) := by
  rw [readVal.eq_def]
  simp [hc]

theorem readVal_obj_dispatch (fuel : Nat) (c : Char) (t : List Char)
    (hc : c ≠ '}') :
    readVal (fuel + 1) ('{' :: c :: t) =
      (match readFields fuel (c :: t) with
       | some (fs, r) => some (.obj fs, r)
       | none => none) := by
  rw [readVal.eq_def]
  simp [hc]

theorem quoteChars_two_le (s : String) : 2 ≤ (quoteChars s).length := by
  rw [quoteChars]
  have := escFoldr_append s.data [] ['"']
  rw [List.nil_append] at this
  rw [← this]
  simp

mutual

theorem rtVal : ∀ (v : Json) (fuel : Nat) (rest : List Char),
    (jsonChars v).length < fuel → notDigitStart rest = true →
    readVal fuel (jsonChars v ++ rest) = some (v, rest)
  | .null, fuel, rest, hf, _ => by
    cases fuel with
    | zero => exact absurd hf (by omega)
    | succ f => rfl
  | .bool true, fuel, rest, hf, _ => by
    cases fuel with
    | zero => exact absurd hf (by omega)
    | succ f => rfl
  | .bool false, fuel, rest, hf, _ => by
    cases fuel with
    | zero => exact absurd hf (by omega)
    | succ f => rfl
  | .num n, fuel, rest, hf, hr => by
    cases fuel with
    | zero => exact absurd hf (by omega)
    | succ f =>
      obtain ⟨c, t, hct, hd, h1, h2, h3, h4, h5, h6, _, _⟩ := intChars_head n
      show readVal (f + 1) (intChars n ++ rest) = some (.num n, rest)
      rw [hct, List.cons_append,
        readVal_num_dispatch f c (t ++ rest) h1 h2 h3 h4 h5 h6 hd,
        ← List.cons_append, ← hct, readNum_intChars n rest hr]
  | .str s, fuel, rest, hf, _ => by
    cases fuel with
    | zero => exact absurd hf (by omega)
    | succ f =>
      have harg : jsonChars (.str s) ++ rest
          = '"' :: s.data.foldr (fun c a => escChar c ++ a) ('"' :: rest) := by
        show ('"' :: s.data.foldr (fun c a => escChar c ++ a) ['"']) ++ rest = _
        rw [List.cons_append, escFoldr_append]
        rfl
      rw [harg]
      show (match readString [] (s.data.foldr (fun c a => escChar c ++ a)
          ('"' :: rest)) with
        | some (s, r) => some (Json.str s, r)
        | none => none) = some (.str s, rest)
      rw [readString_quoteChars s rest]
  | .arr [], fuel, rest, hf, _ => by
    cases fuel with
    | zero => exact absurd hf (by omega)
    | succ f => rfl
  | .arr (v :: vs), fuel, rest, hf, _ => by
    cases fuel with
    | zero => exact absurd hf (by omega)
    | succ f =>
      have hlen : (elemsChars (v :: vs)).length + 1 < f := by
        have : (jsonChars (.arr (v :: vs))).length
            = (elemsChars (v :: vs)).length + 2 := by
          show ('[' :: (elemsChars (v :: vs) ++ [']'])).length = _
          simp
        omega
      obtain ⟨c, t, hct, hcr, _⟩ := elemsChars_head v vs
      have harg : jsonChars (.arr (v :: vs)) ++ rest
          = '[' :: (elemsChars (v :: vs) ++ ']' :: rest) := by
        show ('[' :: (elemsChars (v :: vs) ++ [']'])) ++ rest = _
        simp
      have hcons : elemsChars (v :: vs) ++ ']' :: rest
          = c :: (t ++ ']' :: rest) := by
        rw [hct]
        rfl
      rw [harg, hcons, readVal_arr_dispatch f c (t ++ ']' :: rest) hcr, ← hcons,
        rtItems v vs f rest hlen]
  | .obj [], fuel, rest, hf, _ => by
    cases fuel with
    | zero => exact absurd hf (by omega)
    | succ f => rfl
  | .obj ((k, v) :: fs), fuel, rest, hf, _ => by
    cases fuel with
    | zero => exact absurd hf (by omega)
    | succ f =>
      have hlen : (fieldsChars ((k, v) :: fs)).length + 1 < f := by
        have : (jsonChars (.obj ((k, v) :: fs))).length
            = (fieldsChars ((k, v) :: fs)).length + 2 := by
          show ('{' :: (fieldsChars ((k, v) :: fs) ++ ['}'])).length = _
          simp
        omega
      have hqk : ∃ b, quoteChars k = '"' :: b := ⟨_, rfl⟩
      obtain ⟨b, hb⟩ := hqk
      have harg : jsonChars (.obj ((k, v) :: fs)) ++ rest
          = '{' :: (fieldsChars ((k, v) :: fs) ++ '}' :: rest) := by
        show ('{' :: (fieldsChars ((k, v) :: fs) ++ ['}'])) ++ rest = _
        simp
      have hcons : ∃ t, fieldsChars ((k, v) :: fs) ++ '}' :: rest = '"' :: t := by
        cases fs with
        | nil =>
          refine ⟨b ++ ':' :: jsonChars v ++ '}' :: rest, ?_⟩
          show (quoteChars k ++ ':' :: jsonChars v) ++ '}' :: rest = _
          rw [hb]
          simp
        | cons f2 fs2 =>
          refine ⟨b ++ ':' :: jsonChars v ++ ',' :: fieldsChars (f2 :: fs2)
            ++ '}' :: rest, ?_⟩
          show (quoteChars k ++ ':' :: jsonChars v ++ ',' :: fieldsChars (f2 :: fs2))
            ++ '}' :: rest = _
          rw [hb]
          simp
      obtain ⟨t, ht⟩ := hcons
      rw [harg, ht, readVal_obj_dispatch f '"' t (by decide), ← ht,
        rtFields (k, v) fs f rest hlen]
  termination_by v _ _ _ _ => sizeOf v
  decreasing_by
    all_goals simp_wf
    all_goals omega

theorem rtItems : ∀ (v : Json) (vs : List Json) (fuel : Nat) (rest : List Char),
    (elemsChars (v :: vs)).length + 1 < fuel →
    readItems fuel (elemsChars (v :: vs) ++ ']' :: rest) = some (v :: vs, rest)
  | v, [], fuel, rest, hf => by
    cases fuel with
    | zero => exact absurd hf (by omega)
    | succ f =>
      have hlen : (jsonChars v).length < f := by
        have : elemsChars [v] = jsonChars v := rfl
        rw [this] at hf
        omega
      show readItems (f + 1) (elemsChars [v] ++ ']' :: rest) = some ([v], rest)
      rw [show elemsChars [v] = jsonChars v from rfl]
      simp only [readItems]
      rw [rtVal v f (']' :: rest) hlen rfl]
      rfl
  | v, v2 :: vs2, fuel, rest, hf => by
    cases fuel with
    | zero => exact absurd hf (by omega)
    | succ f =>
      have hsplit : elemsChars (v :: v2 :: vs2)
          = jsonChars v ++ ',' :: elemsChars (v2 :: vs2) := rfl
      have hlen1 : (jsonChars v).length < f := by
        rw [hsplit] at hf
        simp only [List.length_append, List.length_cons] at hf
        omega
      have hlen2 : (elemsChars (v2 :: vs2)).length + 1 < f := by
        rw [hsplit] at hf
        simp only [List.length_append, List.length_cons] at hf
        omega
      show readItems (f + 1) (elemsChars (v :: v2 :: vs2) ++ ']' :: rest)
        = some (v :: v2 :: vs2, rest)
      rw [hsplit, List.append_assoc, List.cons_append]
      simp only [readItems]
      rw [rtVal v f (',' :: (elemsChars (v2 :: vs2) ++ ']' :: rest)) hlen1 rfl]
      show (match readItems f (elemsChars (v2 :: vs2) ++ ']' :: rest) with
        | some (vs, r3) => some (v :: vs, r3)
        | none => none) = some (v :: v2 :: vs2, rest)
      rw [rtItems v2 vs2 f rest hlen2]
  termination_by v vs _ _ _ => sizeOf v + sizeOf vs + 1
  decreasing_by
    all_goals simp_wf
    all_goals omega

theorem rtFields : ∀ (kv : String × Json) (fs : List (String × Json))
    (fuel : Nat) (rest : List Char),
    (fieldsChars (kv :: fs)).length + 1 < fuel →
    readFields fuel (fieldsChars (kv :: fs) ++ '}' :: rest) = some (kv :: fs, rest)
  | (k, v), [], fuel, rest, hf => by
    cases fuel with
    | zero => exact absurd hf (by omega)
    | succ f =>
      have hq2 := quoteChars_two_le k
      have hlen : (jsonChars v).length < f := by
        rw [show fieldsChars [(k, v)] = quoteChars k ++ ':' :: jsonChars v
          from rfl] at hf
        simp only [List.length_append, List.length_cons] at hf
        omega
      have harg : fieldsChars [(k, v)] ++ '}' :: rest
          = '"' :: (k.data.foldr (fun c a => escChar c ++ a)
              ('"' :: (':' :: (jsonChars v ++ '}' :: rest)))) := by
        show (quoteChars k ++ ':' :: jsonChars v) ++ '}' :: rest = _
        rw [quoteChars]
        simp only [List.cons_append, List.append_assoc, escFoldr_append,
          List.singleton_append, List.nil_append]
      rw [harg]
      simp only [readFields]
      rw [readString_quoteChars k (':' :: (jsonChars v ++ '}' :: rest))]
      show (match readVal f (jsonChars v ++ '}' :: rest) with
        | some (v, r3) =>
          match r3 with
          | ',' :: r4 =>
            match readFields f r4 with
            | some (fs, r5) => some ((k, v) :: fs, r5)
            | none => none
          | '}' :: r4 => some ([(k, v)], r4)
          | _ => none
        | none => none) = some ([(k, v)], rest)
      rw [rtVal v f ('}' :: rest) hlen rfl]
      rfl
  | (k, v), (k2, v2) :: fs2, fuel, rest, hf => by
    cases fuel with
    | zero => exact absurd hf (by omega)
    | succ f =>
      have hq2 := quoteChars_two_le k
      have hsplit : fieldsChars ((k, v) :: (k2, v2) :: fs2)
          = quoteChars k
            ++ (':' :: jsonChars v ++ ',' :: fieldsChars ((k2, v2) :: fs2)) := by
        rw [fieldsChars, List.append_assoc]
      have hlen12 : (jsonChars v).length < f ∧
          (fieldsChars ((k2, v2) :: fs2)).length + 1 < f := by
        rw [hsplit] at hf
        simp only [List.length_append, List.length_cons] at hf
        omega
      obtain ⟨hlen1, hlen2⟩ := hlen12
      have harg : fieldsChars ((k, v) :: (k2, v2) :: fs2) ++ '}' :: rest
          = '"' :: (k.data.foldr (fun c a => escChar c ++ a)
              ('"' :: (':' :: (jsonChars v
                ++ ',' :: (fieldsChars ((k2, v2) :: fs2) ++ '}' :: rest))))) := by
        rw [hsplit, quoteChars]
        simp only [List.cons_append, List.append_assoc, escFoldr_append,
          List.singleton_append, List.nil_append]
      rw [harg]
      simp only [readFields]
      rw [readString_quoteChars k
        (':' :: (jsonChars v ++ ',' :: (fieldsChars ((k2, v2) :: fs2) ++ '}' :: rest)))]
      show (match readVal f (jsonChars v
          ++ ',' :: (fieldsChars ((k2, v2) :: fs2) ++ '}' :: rest)) with
        | some (v, r3) =>
          match r3 with
          | ',' :: r4 =>
            match readFields f r4 with
            | some (fs, r5) => some ((k, v) :: fs, r5)
            | none => none
          | '}' :: r4 => some ([(k, v)], r4)
          | _ => none
        | none => none) = some ((k, v) :: (k2, v2) :: fs2, rest)
      rw [rtVal v f (',' :: (fieldsChars ((k2, v2) :: fs2) ++ '}' :: rest)) hlen1 rfl]
      show (match readFields f (fieldsChars ((k2, v2) :: fs2) ++ '}' :: rest) with
        | some (fs, r5) => some ((k, v) :: fs, r5)
        | none => none) = some ((k, v) :: (k2, v2) :: fs2, rest)
      rw [rtFields (k2, v2) fs2 f rest hlen2]
  termination_by kv fs _ _ _ => sizeOf kv + sizeOf fs + 1
  decreasing_by
    all_goals simp_wf
    all_goals omega

end

/-- The codec round-trip: parsing a rendered value recovers it exactly. -/
theorem parse_stringify (v : Json) : Json.parse (Json.stringify v) = some v := by
  rw [Json.parse, Json.stringify]
  have hv := rtVal v ((jsonChars v).length + 1) [] (by omega) rfl
  rw [List.append_nil] at hv
  show (match readVal ((jsonChars v).length + 1) (jsonChars v) with
    | some (v, []) => some v
    | _ => none) = some v
  rw [hv]

/-! ## The response context (`responseContext` in `Bonfire.handleRequest`)

The per-request closure state `statusCode` / `headers` / `responseBody` and
the object literal of fluent operations mutating it become a record and an
operation type folded over it. The template-resolution collaborator (the
injected `templateEngine` together with the `path.join(viewsDir, ...)`
lookup, both external to the dispatch core) is a parameter producing either
rendered text or a thrown error's message. -/

/-- The injected template-resolution collaborator: rendered text on
success, the thrown error's `.message` on failure. -/
def Engine : Type := String → List (String × Json) → Except String String

structure RespState where
  statusCode : Nat
  headers : List (String × String)
  responseBody : Option String

/-- The response context as `handleRequest` creates it: status 200, no
headers, no body. -/
def initResp : RespState := ⟨200, [], none⟩

/-- One call on the `responseContext` object. -/
inductive ROp where
  | status (code : Nat)
  | json (data : Json)
  | send (data : String)
  | setHeader (key value : String)
  | render (templatePath : String) (data : List (String × Json))

/-- The effect of one `responseContext` call, transcribed case by case from
the object literal: `status(code)` stores the code; `json(data)` sets the
`Content-Type` header to `application/json` and the body to the serialized
text; `send(data)` sets the body verbatim; `setHeader(k, v)` writes one
header; `render(tp, data)` asks the engine and on success sets
`Content-Type: text/html` and the rendered body, while on failure it
recovers locally (nothing propagates: every case returns a state), setting
`Content-Type: text/plain`, status 500, and the error-embedding body. -/
def applyOp (engine : Engine) (s : RespState) : ROp → RespState
  | .status code => { s with statusCode := code }
  | .json data =>
    { s with headers := assocSet s.headers "Content-Type" "application/json",
             responseBody := some (Json.stringify data) }
  | .send data => { s with responseBody := some data }
  | .setHeader k v => { s with headers := assocSet s.headers k v }
  | .render tp data =>
    match engine tp data with
    | .ok rendered =>
      { s with headers := assocSet s.headers "Content-Type" "text/html",
               responseBody := some rendered }
    | .error msg =>
      { statusCode := 500,
        headers := assocSet s.headers "Content-Type" "text/plain",
        responseBody := some ("Error rendering template: " ++ msg) }

/-- A sequence of `responseContext` calls, applied in order. -/
def applyOps (engine : Engine) (s : RespState) (ops : List ROp) : RespState :=
  ops.foldl (applyOp engine) s

/-! ### Last-write-wins (C5) -/

/-- The status write an operation performs, if any. Note a failing `render`
writes 500 — the only status write that is not a `status` call. -/
def opStatusWrite (engine : Engine) : ROp → Option Nat
  | .status code => some code
  | .render tp data =>
    match engine tp data with
    | .ok _ => none
    | .error _ => some 500
  | _ => none

/-- The claim's reading of status writes: the argument of a `status` call,
nothing else. -/
def opStatusCallArg : ROp → Option Nat
  | .status code => some code
  | _ => none

/-- The value an operation writes for the header `key`, if any. -/
def opHeaderWrite (engine : Engine) (key : String) : ROp → Option String
  | .json _ => if "Content-Type" == key then some "application/json" else none
  | .setHeader k v => if k == key then some v else none
  | .render tp data =>
    if "Content-Type" == key then
      match engine tp data with
      | .ok _ => some "text/html"
      | .error _ => some "text/plain"
    else none
  | _ => none

/-- The body an operation writes, if any (the terminal body producers
`send` / `json` / `render`). -/
def opBodyWrite (engine : Engine) : ROp → Option String
  | .json data => some (Json.stringify data)
  | .send data => some data
  | .render tp data =>
    match engine tp data with
    | .ok rendered => some rendered
    | .error msg => some ("Error rendering template: " ++ msg)
  | _ => none

/-- The last write in an operation sequence, scanning from the end. -/
def lastWrite (f : ROp → Option α) (ops : List ROp) : Option α :=
  ops.reverse.findSome? f

theorem find?_map_overwrite_ne (m : List (String × α)) (k k' : String) (v : α)
    (h : (k' == k) = false) :
    List.find? (fun e => e.1 == k)
        (m.map (fun e => if e.1 == k' then (k', v) else e))
      = List.find? (fun e => e.1 == k) m := by
  induction m with
  | nil => rfl
  | cons e rest ih =>
    rw [List.map_cons]
    by_cases he : (e.1 == k') = true
    · have hek : e.1 = k' := by simpa using he
      rw [if_pos he, List.find?_cons_of_neg _ (by simpa using h),
        List.find?_cons_of_neg _ (by rw [hek]; simpa using h)]
      exact ih
    · rw [if_neg he]
      by_cases hek2 : (e.1 == k) = true
      · rw [List.find?_cons_of_pos _ (by exact hek2),
          List.find?_cons_of_pos _ (by exact hek2)]
      · rw [List.find?_cons_of_neg _ (by exact hek2),
          List.find?_cons_of_neg _ (by exact hek2)]
        exact ih

theorem assocGet_assocSet_ne (m : List (String × α)) (k k' : String) (v : α)
    (h : (k' == k) = false) :
    assocGet (assocSet m k' v) k = assocGet m k := by
  unfold assocSet assocGet
  by_cases hp : m.any (fun e => e.1 == k') = true
  · rw [if_pos hp]
    congr 1
    exact find?_map_overwrite_ne m k k' v h
  · rw [if_neg hp]
    congr 1
    rw [List.find?_append]
    have : List.find? (fun e => e.1 == k) [(k', v)] = none := by
      simp [List.find?, h]
    rw [this, Option.or_none]

/-- **C5 (amended).** Before the terminal read, every field of the response
context holds its last-written value: the status is the argument of the
last status write — a `status` call, or 500 from a failing `render` — or
200 if none; each header holds the last `setHeader` / `json` / `render`
write for its key; the body is the last terminal write by
`send` / `json` / `render`, with no aggregation. -/
theorem response_last_write_wins (engine : Engine) (ops : List ROp) :
    (applyOps engine initResp ops).statusCode
      = (lastWrite (opStatusWrite engine) ops).getD 200 ∧
    (∀ k, assocGet (applyOps engine initResp ops).headers k
      = lastWrite (opHeaderWrite engine k) ops) ∧
    (applyOps engine initResp ops).responseBody
      = lastWrite (opBodyWrite engine) ops := by
  induction ops using List.reverseRecOn with
  | nil =>
    refine ⟨rfl, fun k => ?_, rfl⟩
    rfl
  | append_singleton l op ih =>
    obtain ⟨ihs, ihh, ihb⟩ := ih
    have happ : applyOps engine initResp (l ++ [op])
        = applyOp engine (applyOps engine initResp l) op := by
      rw [applyOps, List.foldl_append]
      rfl
    have hrev : ∀ {β : Type} (f : ROp → Option β), lastWrite f (l ++ [op])
        = (f op).or (lastWrite f l) := by
      intro β f
      show ((l ++ [op]).reverse.findSome? f) = _
      rw [List.reverse_append, List.reverse_singleton, List.singleton_append,
        List.findSome?_cons]
      cases f op <;> rfl
    have hrevh : ∀ k, lastWrite (opHeaderWrite engine k) (l ++ [op])
        = (opHeaderWrite engine k op).or (lastWrite (opHeaderWrite engine k) l) :=
      fun k => hrev _
    rw [happ, hrev, hrev]
    simp only [hrevh]
    cases op with
    | status code => exact ⟨rfl, fun k => ihh k, ihb⟩
    | json data =>
      refine ⟨ihs, fun k => ?_, rfl⟩
      show assocGet (assocSet _ "Content-Type" "application/json") k = _
      by_cases hk : ("Content-Type" == k) = true
      · have : "Content-Type" = k := by simpa using hk
        subst this
        rw [assocGet_assocSet]
        simp [opHeaderWrite]
      · have hk' : ("Content-Type" == k) = false := by simpa using hk
        rw [assocGet_assocSet_ne _ _ _ _ hk', ihh k]
        simp [opHeaderWrite, hk']
    | send data => exact ⟨ihs, fun k => ihh k, rfl⟩
    | setHeader key value =>
      refine ⟨ihs, fun k => ?_, ihb⟩
      show assocGet (assocSet _ key value) k = _
      by_cases hk : (key == k) = true
      · have : key = k := by simpa using hk
        subst this
        rw [assocGet_assocSet]
        simp [opHeaderWrite]
      · have hk' : (key == k) = false := by simpa using hk
        rw [assocGet_assocSet_ne _ _ _ _ hk', ihh k]
        simp [opHeaderWrite, hk']
    | render tp data =>
      cases heng : engine tp data with
      | ok rendered =>
        refine ⟨?_, fun k => ?_, ?_⟩
        · show (match engine tp data with
            | .ok rendered =>
              { applyOps engine initResp l with
                headers := assocSet (applyOps engine initResp l).headers
                  "Content-Type" "text/html",
                responseBody := some rendered }
            | .error msg =>
              { statusCode := 500,
                headers := assocSet (applyOps engine initResp l).headers
                  "Content-Type" "text/plain",
                responseBody := some ("Error rendering template: " ++ msg)
                }).statusCode = _
          rw [heng]
          show (applyOps engine initResp l).statusCode = _
          rw [ihs]
          simp [opStatusWrite, heng]
        · show assocGet (match engine tp data with
            | .ok rendered =>
              { applyOps engine initResp l with
                headers := assocSet (applyOps engine initResp l).headers
                  "Content-Type" "text/html",
                responseBody := some rendered }
            | .error msg =>
              { statusCode := 500,
                headers := assocSet (applyOps engine initResp l).headers
                  "Content-Type" "text/plain",
                responseBody := some ("Error rendering template: " ++ msg)
                }).headers k = _
          rw [heng]
          show assocGet (assocSet _ "Content-Type" "text/html") k = _
          by_cases hk : ("Content-Type" == k) = true
          · have : "Content-Type" = k := by simpa using hk
            subst this
            rw [assocGet_assocSet]
            simp [opHeaderWrite, heng]
          · have hk' : ("Content-Type" == k) = false := by simpa using hk
            rw [assocGet_assocSet_ne _ _ _ _ hk', ihh k]
            simp [opHeaderWrite, hk']
        · show (match engine tp data with
            | .ok rendered =>
              { applyOps engine initResp l with
                headers := assocSet (applyOps engine initResp l).headers
                  "Content-Type" "text/html",
                responseBody := some rendered }
            | .error msg =>
              { statusCode := 500,
                headers := assocSet (applyOps engine initResp l).headers
                  "Content-Type" "text/plain",
                responseBody := some ("Error rendering template: " ++ msg)
                }).responseBody = _
          rw [heng]
          show some rendered = _
          simp [opBodyWrite, heng]
      | error msg =>
        refine ⟨?_, fun k => ?_, ?_⟩
        · show (match engine tp data with
            | .ok rendered =>
              { applyOps engine initResp l with
                headers := assocSet (applyOps engine initResp l).headers
                  "Content-Type" "text/html",
                responseBody := some rendered }
            | .error msg =>
              { statusCode := 500,
                headers := assocSet (applyOps engine initResp l).headers
                  "Content-Type" "text/plain",
                responseBody := some ("Error rendering template: " ++ msg)
                }).statusCode = _
          rw [heng]
          simp [opStatusWrite, heng]
        · show assocGet (match engine tp data with
            | .ok rendered =>
              { applyOps engine initResp l with
                headers := assocSet (applyOps engine initResp l).headers
                  "Content-Type" "text/html",
                responseBody := some rendered }
            | .error msg =>
              { statusCode := 500,
                headers := assocSet (applyOps engine initResp l).headers
                  "Content-Type" "text/plain",
                responseBody := some ("Error rendering template: " ++ msg)
                }).headers k = _
          rw [heng]
          show assocGet (assocSet _ "Content-Type" "text/plain") k = _
          by_cases hk : ("Content-Type" == k) = true
          · have : "Content-Type" = k := by simpa using hk
            subst this
            rw [assocGet_assocSet]
            simp [opHeaderWrite, heng]
          · have hk' : ("Content-Type" == k) = false := by simpa using hk
            rw [assocGet_assocSet_ne _ _ _ _ hk', ihh k]
            simp [opHeaderWrite, hk']
        · show (match engine tp data with
            | .ok rendered =>
              { applyOps engine initResp l with
                headers := assocSet (applyOps engine initResp l).headers
                  "Content-Type" "text/html",
                responseBody := some rendered }
            | .error msg =>
              { statusCode := 500,
                headers := assocSet (applyOps engine initResp l).headers
                  "Content-Type" "text/plain",
                responseBody := some ("Error rendering template: " ++ msg)
                }).responseBody = _
          rw [heng]
          simp [opBodyWrite, heng]

/-- An always-failing template engine (the collaborator throws). -/
def engineFail : Engine := fun _ _ => .error "boom"

/-- An engine that renders every template to a fixed page. -/
def engineOk : Engine := fun _ _ => .ok "<h1>hi</h1>"

/-- **C5 (counterexample to the claim as stated).** After the single
operation `render` with a failing engine — a sequence containing no
`status` call — the context's status is 500, while the claim's formula
("the argument of the last `status` call, or 200 if none") yields 200. -/
theorem c5_counterexample :
    (applyOps engineFail initResp [ROp.render "view.html" []]).statusCode = 500 ∧
    (lastWrite opStatusCallArg [ROp.render "view.html" []]).getD 200 = 200 :=
  ⟨rfl, rfl⟩

/-- **C6.** `render(templateRef, data)`: when the template-resolution
collaborator succeeds, the context gets `Content-Type: text/html` and the
rendered text as its body; when it fails with message `msg`, the context
gets status 500, `Content-Type: text/plain`, and the body
`"Error rendering template: " ++ msg` — a human-readable message embedding
the failure's message. `applyOp` is total, so neither case propagates an
error to the caller. -/
theorem render_recovers (engine : Engine) (s : RespState) (tp : String)
    (data : List (String × Json)) :
    (∀ rendered, engine tp data = .ok rendered →
      assocGet (applyOp engine s (.render tp data)).headers "Content-Type"
          = some "text/html" ∧
        (applyOp engine s (.render tp data)).responseBody = some rendered ∧
        (applyOp engine s (.render tp data)).statusCode = s.statusCode) ∧
    (∀ msg, engine tp data = .error msg →
      (applyOp engine s (.render tp data)).statusCode = 500 ∧
        assocGet (applyOp engine s (.render tp data)).headers "Content-Type"
          = some "text/plain" ∧
        (applyOp engine s (.render tp data)).responseBody
          = some ("Error rendering template: " ++ msg)) := by
  constructor
  · intro rendered heng
    rw [show applyOp engine s (.render tp data)
        = (match engine tp data with
          | .ok rendered =>
            { s with headers := assocSet s.headers "Content-Type" "text/html",
                     responseBody := some rendered }
          | .error msg =>
            { statusCode := 500,
              headers := assocSet s.headers "Content-Type" "text/plain",
              responseBody := some ("Error rendering template: " ++ msg) })
      from rfl, heng]
    exact ⟨assocGet_assocSet s.headers "Content-Type" "text/html", rfl, rfl⟩
  · intro msg heng
    rw [show applyOp engine s (.render tp data)
        = (match engine tp data with
          | .ok rendered =>
            { s with headers := assocSet s.headers "Content-Type" "text/html",
                     responseBody := some rendered }
          | .error msg =>
            { statusCode := 500,
              headers := assocSet s.headers "Content-Type" "text/plain",
              responseBody := some ("Error rendering template: " ++ msg) })
      from rfl, heng]
    exact ⟨rfl, assocGet_assocSet s.headers "Content-Type" "text/plain", rfl⟩

/-- Witness for C6: a successful render of a fixed page, and a failing
render whose error message "boom" is embedded in the 500 body. -/
theorem render_recovers_witness :
    (assocGet (applyOp engineOk initResp (.render "t" [])).headers "Content-Type"
        = some "text/html" ∧
      (applyOp engineOk initResp (.render "t" [])).responseBody
        = some "<h1>hi</h1>" ∧
      (applyOp engineOk initResp (.render "t" [])).statusCode
        = initResp.statusCode) ∧
    ((applyOp engineFail initResp (.render "t" [])).statusCode = 500 ∧
      assocGet (applyOp engineFail initResp (.render "t" [])).headers "Content-Type"
        = some "text/plain" ∧
      (applyOp engineFail initResp (.render "t" [])).responseBody
        = some ("Error rendering template: " ++ "boom")) :=
  ⟨(render_recovers engineOk initResp "t" []).1 "<h1>hi</h1>" rfl,
   (render_recovers engineFail initResp "t" []).2 "boom" rfl⟩

/-- **C7.** `json(data)` sets the `Content-Type` header to
`application/json` and the body to the canonical serialization of `data`,
and parsing that body reproduces `data` exactly (the codec round-trip),
for every JSON value in the model (integer numerals, scalar-value
strings). -/
theorem json_roundtrip (engine : Engine) (s : RespState) (data : Json) :
    assocGet (applyOp engine s (.json data)).headers "Content-Type"
        = some "application/json" ∧
      (applyOp engine s (.json data)).responseBody
        = some (Json.stringify data) ∧
      Json.parse (Json.stringify data) = some data :=
  ⟨assocGet_assocSet s.headers "Content-Type" "application/json", rfl,
   parse_stringify data⟩

/-! ## The middleware chain and the dispatcher (`Bonfire.handleRequest`)

`executeMiddleware(index)` is an async function: each call runs
synchronously until its first `await` (its *synchronous prefix*), continues
when what it awaited settles, and its promise resolves when the middleware
function at that index returns, everything the middleware itself awaited
having completed. The dispatcher awaits `executeMiddleware(0)` and only
then reads the response state and flushes it. The `Middleware` type hands
the step a continuation typed `next: () => void`, so a step may invoke the
continuation *without awaiting the promise it actually returns* (the
repository's own `jsonMiddleware` and `staticMiddleware` both do exactly
that): everything downstream of such a call that lies beyond a suspension
point escapes the promise chain the dispatcher awaits, and when that work
resumes from an external event (I/O, a body `end` event, a timer) it runs
only after the flush. The model makes this explicit:

* a `Step` is one middleware, specialised to the request: synchronous work
  before its first suspension, optional post-suspension work, whether the
  body's promise ever settles (`jsonMiddleware`'s JSON-parse-error path
  never calls `resolve()`, so it does not), whether it invokes `next`,
  whether it awaits `next`'s promise, and its work after that await;
* `PRes` describes one `executeMiddleware(i)` invocation: the effect of
  its synchronous prefix, the further effect up to the resolution of its
  promise (or up to where it hangs), whether the promise resolves, the
  escaped continuations (run after the flush, in order), how many steps of
  the remaining chain ever begin, and whether the route handler begins;
* a handler is a `Prog`: synchronous work, plus optional work after an
  external suspension of its own (`await handler(...)` in the terminal
  continuation does await the handler's promise). -/

structure Ctx where
  params : List (String × String)
  reqBody : Option Json
  resp : RespState

/-- The per-request state as `handleRequest` creates it: empty params, null
body, fresh response context. -/
def initCtx : Ctx := ⟨[], none, initResp⟩

/-- A program over the request state: a synchronous part, then optionally a
part that runs after an external suspension point. -/
structure Prog where
  sync : Ctx → Ctx
  susp : Option (Ctx → Ctx)

/-- One middleware step, specialised to the request being dispatched. -/
structure Step where
  body : Prog
  bodyCompletes : Bool
  callsNext : Bool
  awaitsNext : Bool
  after : Ctx → Ctx

/-- The observable behaviour of one `executeMiddleware(i)` invocation. -/
structure PRes where
  syncEff : Ctx → Ctx
  restEff : Ctx → Ctx
  resolves : Bool
  deferred : List (Ctx → Ctx)
  started : Nat
  handlerStarted : Bool

/-- How `await this.middlewares[index](req, res, () => executeMiddleware(index + 1))`
composes one step with the behaviour `D` of the rest of the chain. If the
step's body suspends, its `next` call (if any) happens after the
suspension; if the body never completes, nothing further runs and the
promise never resolves. A step that calls `next` runs `D`'s synchronous
prefix inline; if it awaits the continuation, `D`'s whole promise is folded
into this step's promise, otherwise only the synchronous prefix is, and the
remainder of `D`'s promise escapes as deferred work. -/
def stepSem (s : Step) (D : PRes) : PRes :=
  match s.body.susp with
  | none =>
    if s.bodyCompletes then
      if s.callsNext then
        if s.awaitsNext then
          { syncEff := D.syncEff ∘ s.body.sync,
            restEff := if D.resolves then s.after ∘ D.restEff else D.restEff,
            resolves := D.resolves,
            deferred := D.deferred,
            started := 1 + D.started,
            handlerStarted := D.handlerStarted }
        else
          { syncEff := D.syncEff ∘ s.body.sync,
            restEff := id,
            resolves := true,
            deferred := D.restEff :: D.deferred,
            started := 1 + D.started,
            handlerStarted := D.handlerStarted }
      else
        { syncEff := s.body.sync, restEff := id, resolves := true,
          deferred := [], started := 1, handlerStarted := false }
    else
      { syncEff := s.body.sync, restEff := id, resolves := false,
        deferred := [], started := 1, handlerStarted := false }
  | some f =>
    if s.bodyCompletes then
      if s.callsNext then
        if s.awaitsNext then
          { syncEff := s.body.sync,
            restEff := (if D.resolves then s.after else id) ∘ D.restEff
              ∘ D.syncEff ∘ f,
            resolves := D.resolves,
            deferred := D.deferred,
            started := 1 + D.started,
            handlerStarted := D.handlerStarted }
        else
          { syncEff := s.body.sync,
            restEff := D.syncEff ∘ f,
            resolves := true,
            deferred := D.restEff :: D.deferred,
            started := 1 + D.started,
            handlerStarted := D.handlerStarted }
      else
        { syncEff := s.body.sync, restEff := f, resolves := true,
          deferred := [], started := 1, handlerStarted := false }
    else
      { syncEff := s.body.sync, restEff := f, resolves := false,
        deferred := [], started := 1, handlerStarted := false }

/-- The terminal continuation (`index >= this.middlewares.length`): match
the route, assign `requestContext.params` (always, matched or not), then
either await the handler, or set status 404 and body `"Not Found"`. -/
def termSem (router : Router Prog) (method url : String) : PRes :=
  match Router.match router method url with
  | (some h, ps) =>
    { syncEff := fun c => h.sync { c with params := ps },
      restEff := h.susp.getD id,
      resolves := true,
      deferred := [],
      started := 0,
      handlerStarted := true }
  | (none, ps) =>
    { syncEff := fun c =>
        { c with
            params := ps,
            resp := { c.resp with
                        statusCode := 404,
                        responseBody := some "Not Found" } },
      restEff := id,
      resolves := true,
      deferred := [],
      started := 0,
      handlerStarted := false }

/-- The whole chain from index 0: `executeMiddleware` is a right fold of
the steps over the terminal continuation. -/
def chainSem (steps : List Step) (term : PRes) : PRes :=
  steps.foldr stepSem term

/-- The status, headers and body of the buffered response. -/
def respTriple (c : Ctx) : Nat × List (String × String) × Option String :=
  (c.resp.statusCode, c.resp.headers, c.resp.responseBody)

/-- What one dispatched request observably does: the triple flushed by
`res.writeHead` / `res.end` after `await executeMiddleware(0)` resolves
(`none` when that promise never resolves and nothing is ever flushed), the
state after all work including escaped continuations has run, how many
steps began, and whether the handler began. -/
structure Outcome where
  flushed : Option (Nat × List (String × String) × Option String)
  final : Ctx
  started : Nat
  handlerStarted : Bool

def handleRequest (steps : List Step) (router : Router Prog)
    (method url : String) : Outcome :=
  let P := chainSem steps (termSem router method url)
  let settled := P.restEff (P.syncEff initCtx)
  { flushed := if P.resolves then some (respTriple settled) else none,
    final := P.deferred.foldl (fun c f => f c) settled,
    started := P.started,
    handlerStarted := P.handlerStarted }

/-- The full effect of a step's body, synchronous and post-suspension. -/
def bodyEff (s : Step) : Ctx → Ctx :=
  fun c => (s.body.susp.getD id) (s.body.sync c)

theorem stepSem_started (s : Step) (D : PRes) :
    (stepSem s D).started
      = if s.bodyCompletes && s.callsNext then 1 + D.started else 1 := by
  unfold stepSem
  cases hs : s.body.susp <;> by_cases h1 : s.bodyCompletes <;>
    by_cases h2 : s.callsNext <;> by_cases h3 : s.awaitsNext <;>
    simp [h1, h2, h3]

theorem stepSem_handlerStarted (s : Step) (D : PRes) :
    (stepSem s D).handlerStarted
      = if s.bodyCompletes && s.callsNext then D.handlerStarted else false := by
  unfold stepSem
  cases hs : s.body.susp <;> by_cases h1 : s.bodyCompletes <;>
    by_cases h2 : s.callsNext <;> by_cases h3 : s.awaitsNext <;>
    simp [h1, h2, h3]

theorem stepSem_deferred (s : Step) (D : PRes) :
    (stepSem s D).deferred
      = if s.bodyCompletes && s.callsNext then
          (if s.awaitsNext then D.deferred else D.restEff :: D.deferred)
        else [] := by
  unfold stepSem
  cases hs : s.body.susp <;> by_cases h1 : s.bodyCompletes <;>
    by_cases h2 : s.callsNext <;> by_cases h3 : s.awaitsNext <;>
    simp [h1, h2, h3]

theorem chainSem_cons (s : Step) (rest : List Step) (term : PRes) :
    chainSem (s :: rest) term = stepSem s (chainSem rest term) := rfl

/-- A step whose body completes, that awaits its continuation and performs
no work after it, passes a resolving continuation through: the promise
resolves, and the settled state is the continuation settled from the state
the body left. -/
theorem stepSem_transparent (s : Step) (D : PRes)
    (hc : s.callsNext = true) (ha : s.awaitsNext = true)
    (haf : s.after = id) (hb : s.bodyCompletes = true)
    (hres : D.resolves = true) :
    (stepSem s D).resolves = true ∧
    ∀ c, (stepSem s D).restEff ((stepSem s D).syncEff c)
      = D.restEff (D.syncEff (bodyEff s c)) := by
  unfold stepSem
  cases hs : s.body.susp with
  | none =>
    simp only [hb, hc, ha, if_pos, if_true, hres]
    refine ⟨trivial, fun c => ?_⟩
    simp [haf, bodyEff, hs, Function.comp]
  | some f =>
    simp only [hb, hc, ha, if_pos, if_true, hres]
    refine ⟨trivial, fun c => ?_⟩
    simp [haf, bodyEff, hs, Function.comp]

/-- A step whose body completes and that does not invoke `next` resolves on
its own; the settled state is just its body's effect. -/
theorem stepSem_halt (s : Step) (D : PRes)
    (hc : s.callsNext = false) (hb : s.bodyCompletes = true) :
    (stepSem s D).resolves = true ∧
    ∀ c, (stepSem s D).restEff ((stepSem s D).syncEff c) = bodyEff s c := by
  unfold stepSem
  cases hs : s.body.susp with
  | none =>
    simp only [hb, hc, Bool.false_eq_true, if_true, if_false]
    exact ⟨trivial, fun c => by simp [bodyEff, hs]⟩
  | some f =>
    simp only [hb, hc, Bool.false_eq_true, if_true, if_false]
    exact ⟨trivial, fun c => by simp [bodyEff, hs]⟩

/-- Once the step at index `pre.length` declines to call `next`, no later
step begins and the handler never begins, whatever the earlier steps do. -/
theorem chainSem_stop (pre : List Step) (s : Step) (post : List Step)
    (term : PRes) (h1 : s.callsNext = false) :
    (chainSem (pre ++ s :: post) term).started ≤ pre.length + 1 ∧
    (chainSem (pre ++ s :: post) term).handlerStarted = false := by
  induction pre with
  | nil =>
    rw [List.nil_append, chainSem_cons, stepSem_started, stepSem_handlerStarted]
    simp [h1]
  | cons t pre ih =>
    rw [List.cons_append, chainSem_cons, stepSem_started, stepSem_handlerStarted]
    by_cases hcond : (t.bodyCompletes && t.callsNext) = true
    · rw [if_pos hcond, if_pos hcond]
      refine ⟨?_, ih.2⟩
      have := ih.1
      simp only [List.length_cons]
      omega
    · rw [if_neg hcond, if_neg hcond]
      exact ⟨by simp only [List.length_cons]; omega, rfl⟩

/-- If every step before the halting one calls and awaits `next`, has no
post-`next` work, and completes, then the chain's promise resolves and its
settled state is the composition of the bodies of steps `0 .. pre.length`
applied in order — the state at the moment the halting step returned. -/
theorem chainSem_shortcircuit (pre : List Step) (s : Step) (post : List Step)
    (term : PRes)
    (hpre : ∀ t ∈ pre, t.callsNext = true ∧ t.awaitsNext = true ∧
      t.after = id ∧ t.bodyCompletes = true)
    (h1 : s.callsNext = false) (h2 : s.bodyCompletes = true) :
    (chainSem (pre ++ s :: post) term).resolves = true ∧
    ∀ c, (chainSem (pre ++ s :: post) term).restEff
        ((chainSem (pre ++ s :: post) term).syncEff c)
      = (pre ++ [s]).foldl (fun c t => bodyEff t c) c := by
  induction pre with
  | nil =>
    rw [List.nil_append, chainSem_cons]
    obtain ⟨hres, heff⟩ := stepSem_halt s (chainSem post term) h1 h2
    exact ⟨hres, fun c => by rw [heff c]; rfl⟩
  | cons t pre ih =>
    obtain ⟨htc, hta, htaf, htb⟩ := hpre t (List.mem_cons_self t pre)
    have ihpre : ∀ u ∈ pre, u.callsNext = true ∧ u.awaitsNext = true ∧
        u.after = id ∧ u.bodyCompletes = true :=
      fun u hu => hpre u (List.mem_cons_of_mem t hu)
    obtain ⟨ihres, iheff⟩ := ih ihpre
    rw [List.cons_append, chainSem_cons]
    obtain ⟨hres, heff⟩ :=
      stepSem_transparent t (chainSem (pre ++ s :: post) term) htc hta htaf htb ihres
    refine ⟨hres, fun c => ?_⟩
    rw [heff c, iheff (bodyEff t c)]
    rfl

/-- If every step calls and awaits `next`, has no post-`next` work, and
completes, the chain runs through to the terminal continuation: the settled
state is the terminal's settled state from the composition of all bodies. -/
theorem chainSem_runs_through (steps : List Step) (term : PRes)
    (hall : ∀ t ∈ steps, t.callsNext = true ∧ t.awaitsNext = true ∧
      t.after = id ∧ t.bodyCompletes = true)
    (hres : term.resolves = true) :
    (chainSem steps term).resolves = true ∧
    ∀ c, (chainSem steps term).restEff ((chainSem steps term).syncEff c)
      = term.restEff (term.syncEff
          (steps.foldl (fun c t => bodyEff t c) c)) := by
  induction steps with
  | nil => exact ⟨hres, fun c => rfl⟩
  | cons t rest ih =>
    obtain ⟨htc, hta, htaf, htb⟩ := hall t (List.mem_cons_self t rest)
    have ihall : ∀ u ∈ rest, u.callsNext = true ∧ u.awaitsNext = true ∧
        u.after = id ∧ u.bodyCompletes = true :=
      fun u hu => hall u (List.mem_cons_of_mem t hu)
    obtain ⟨ihres, iheff⟩ := ih ihall
    rw [chainSem_cons]
    obtain ⟨hres2, heff⟩ :=
      stepSem_transparent t (chainSem rest term) htc hta htaf htb ihres
    refine ⟨hres2, fun c => ?_⟩
    rw [heff c, iheff (bodyEff t c)]
    rfl

/-! ### Short-circuiting (C2) -/

/-- **C2 (amended).** If the step at index `pre.length` returns without
invoking its continuation, then (first part, unconditionally) no step after
it ever begins and the route handler never begins; and (second part) the
response flushed is exactly the context state at the moment that step
returned, provided each earlier step awaits the promise its `next` call
returns, performs no response work after that await, and completes — the
provisos the counterexamples force: an earlier step may mutate the response
after its await resolves, and a non-awaited continuation may leave the
short-circuiting step's own asynchronous work unflushed. -/
theorem shortcircuit_halts_chain :
    (∀ (pre : List Step) (s : Step) (post : List Step) (router : Router Prog)
      (method url : String), s.callsNext = false →
      (handleRequest (pre ++ s :: post) router method url).started ≤ pre.length + 1 ∧
      (handleRequest (pre ++ s :: post) router method url).handlerStarted = false) ∧
    (∀ (pre : List Step) (s : Step) (post : List Step) (router : Router Prog)
      (method url : String),
      (∀ t ∈ pre, t.callsNext = true ∧ t.awaitsNext = true ∧
        t.after = id ∧ t.bodyCompletes = true) →
      s.callsNext = false → s.bodyCompletes = true →
      (handleRequest (pre ++ s :: post) router method url).flushed
        = some (respTriple
            ((pre ++ [s]).foldl (fun c t => bodyEff t c) initCtx))) := by
  constructor
  · intro pre s post router method url h1
    exact chainSem_stop pre s post (termSem router method url) h1
  · intro pre s post router method url hpre h1 h2
    obtain ⟨hres, heff⟩ :=
      chainSem_shortcircuit pre s post (termSem router method url) hpre h1 h2
    show (if (chainSem (pre ++ s :: post) (termSem router method url)).resolves
        then some (respTriple
          ((chainSem (pre ++ s :: post) (termSem router method url)).restEff
            ((chainSem (pre ++ s :: post) (termSem router method url)).syncEff
              initCtx)))
        else none) = _
    rw [hres, if_pos rfl, heff initCtx]

/-- A step that awaits its continuation and then writes a header. -/
def headerAfterStep : Step :=
  ⟨⟨id, none⟩, true, true, true,
    fun c => { c with
      resp := { c.resp with
                  headers := assocSet c.resp.headers "X-After" "1" } }⟩

/-- A step that writes 401 / "no" synchronously and does not call `next`. -/
def rejectStep : Step :=
  ⟨⟨fun c => { c with
      resp := { c.resp with
                  statusCode := 401,
                  responseBody := some "no" } }, none⟩,
    true, false, false, id⟩

/-- A transparent step: synchronous no-op body, calls and awaits `next`,
nothing after. -/
def awaitStep : Step := ⟨⟨id, none⟩, true, true, true, id⟩

/-- **C2 (counterexample to the claim as stated).** Step 0 awaits `next`
and then writes the header `X-After`; step 1 short-circuits with
401 / "no". When step 1 returned, the context held no headers — but the
flushed response carries `X-After`, so the flushed response is not exactly
the state at step 1's return. -/
theorem c2_counterexample :
    (handleRequest [headerAfterStep, rejectStep] (Router.empty : Router Prog)
        "GET" "/").flushed = some (401, [("X-After", "1")], some "no") ∧
    respTriple (bodyEff rejectStep (bodyEff headerAfterStep initCtx))
      = (401, [], some "no") ∧
    some (401, [("X-After", "1")], some "no")
      ≠ some ((401 : Nat), ([] : List (String × String)),
          (some "no" : Option String)) :=
  ⟨rfl, rfl, by decide⟩

/-- Witness for C2 at a concrete chain: one transparent step, then a
short-circuiting 401 step; no later step nor the handler begins, and the
flush is exactly the state at the halting step's return. -/
theorem shortcircuit_halts_chain_witness :
    ((handleRequest [awaitStep, rejectStep, awaitStep]
        (Router.empty : Router Prog) "GET" "/w").started ≤ 2 ∧
      (handleRequest [awaitStep, rejectStep, awaitStep]
        (Router.empty : Router Prog) "GET" "/w").handlerStarted = false) ∧
    (handleRequest [awaitStep, rejectStep]
        (Router.empty : Router Prog) "GET" "/w").flushed
      = some (respTriple
          (([awaitStep] ++ [rejectStep]).foldl (fun c t => bodyEff t c) initCtx)) :=
  ⟨shortcircuit_halts_chain.1 [awaitStep] rejectStep [awaitStep]
      Router.empty "GET" "/w" rfl,
   shortcircuit_halts_chain.2 [awaitStep] rejectStep [] Router.empty "GET" "/w"
      (by
        intro t ht
        rw [List.mem_singleton] at ht
        subst ht
        exact ⟨rfl, rfl, rfl, rfl⟩)
      rfl rfl⟩

/-! ### The flush and asynchronous completion (C3) -/

/-- **C3 (amended).** Provided every step that invokes its continuation
awaits the promise the continuation returns, no work escapes the promise
the dispatcher awaits (`deferred = []`), and whenever a response is
flushed it equals the state after the whole chain, handler included, has
completed. Without that proviso the claim fails: the `next: () => void`
typing lets a step fire the continuation without awaiting it, and the
repository's own middlewares do exactly that (see the counterexample). -/
theorem chainSem_deferred_nil (steps : List Step) (term : PRes)
    (hterm : term.deferred = [])
    (hall : ∀ s ∈ steps, s.callsNext = true → s.awaitsNext = true) :
    (chainSem steps term).deferred = [] := by
  induction steps with
  | nil => exact hterm
  | cons s rest ih =>
    have ihall : ∀ u ∈ rest, u.callsNext = true → u.awaitsNext = true :=
      fun u hu => hall u (List.mem_cons_of_mem s hu)
    rw [chainSem_cons, stepSem_deferred]
    by_cases hcond : (s.bodyCompletes && s.callsNext) = true
    · have hcn : s.callsNext = true := by
        rw [Bool.and_eq_true] at hcond
        exact hcond.2
      have ha : s.awaitsNext = true := hall s (List.mem_cons_self s rest) hcn
      rw [if_pos hcond, ha, if_pos rfl]
      exact ih ihall
    · rw [if_neg hcond]

theorem termSem_deferred (router : Router Prog) (method url : String) :
    (termSem router method url).deferred = [] := by
  unfold termSem
  rcases Router.match router method url with ⟨oh, ps⟩
  cases oh <;> rfl

theorem flush_after_completion (steps : List Step) (router : Router Prog)
    (method url : String)
    (hall : ∀ s ∈ steps, s.callsNext = true → s.awaitsNext = true) :
    (chainSem steps (termSem router method url)).deferred = [] ∧
    ∀ t, (handleRequest steps router method url).flushed = some t →
      t = respTriple ((handleRequest steps router method url).final) := by
  have hdef : (chainSem steps (termSem router method url)).deferred = [] :=
    chainSem_deferred_nil steps (termSem router method url)
      (termSem_deferred router method url) hall
  refine ⟨hdef, fun t ht => ?_⟩
  have hflush : (handleRequest steps router method url).flushed
      = (if (chainSem steps (termSem router method url)).resolves
         then some (respTriple
           ((chainSem steps (termSem router method url)).restEff
             ((chainSem steps (termSem router method url)).syncEff initCtx)))
         else none) := rfl
  have hfin : (handleRequest steps router method url).final
      = (chainSem steps (termSem router method url)).deferred.foldl
          (fun c f => f c)
          ((chainSem steps (termSem router method url)).restEff
            ((chainSem steps (termSem router method url)).syncEff initCtx)) := rfl
  rw [hflush] at ht
  rw [hfin, hdef]
  by_cases hres : (chainSem steps (termSem router method url)).resolves = true
  · rw [if_pos hres] at ht
    exact (Option.some.inj ht).symm
  · rw [if_neg hres] at ht
    exact absurd ht (by simp)

/-- Witness for C3: with one transparent (awaiting) step and no matching
route, nothing escapes the awaited promise, and the flushed triple is the
state after everything completed. -/
theorem flush_after_completion_witness :
    (chainSem [awaitStep] (termSem (Router.empty : Router Prog) "GET" "/w3")).deferred
        = [] ∧
    ((404 : Nat), ([] : List (String × String)),
        (some "Not Found" : Option String))
      = respTriple ((handleRequest [awaitStep] (Router.empty : Router Prog)
          "GET" "/w3").final) := by
  have h := flush_after_completion [awaitStep] Router.empty "GET" "/w3"
    (by
      intro s hs
      rw [List.mem_singleton] at hs
      subst hs
      intro _
      rfl)
  exact ⟨h.1, h.2 _ rfl⟩

/-- A step that fires `next` without awaiting it (the shape of the
repository's own middlewares under `next: () => void`). -/
def fireStep : Step := ⟨⟨id, none⟩, true, true, false, id⟩

/-- A handler that suspends (asynchronous work) and only then writes its
body. -/
def slowHandler : Prog :=
  ⟨id, some (fun c => { c with
    resp := { c.resp with responseBody := some "late" } })⟩

def slowRouter : Router Prog := Router.empty.register "GET" "/a" slowHandler

/-- **C3 (counterexample to the claim as stated).** With a step that calls
`next` without awaiting it and a handler that performs asynchronous work,
the dispatcher flushes `(200, no headers, no body)` before the handler's
work completes — the final state does carry the handler's body "late", but
the flush did not wait for it. -/
theorem c3_counterexample :
    (handleRequest [fireStep] slowRouter "GET" "/a").flushed
      = some (200, [], none) ∧
    ((handleRequest [fireStep] slowRouter "GET" "/a").final).resp.responseBody
      = some "late" :=
  ⟨rfl, rfl⟩

/-! ### The not-found fallback (C4) -/

/-- **C4 (amended).** When no route matches and the chain exhausts — every
step calls `next`, and (as the counterexample forces) awaits it, performs
no response work after it, and completes — the dispatcher's terminal
continuation sets status 404 with body exactly `"Not Found"`, and that is
the response flushed (the headers are whatever the steps accumulated). -/
theorem no_route_flushes_404 (steps : List Step) (router : Router Prog)
    (method url : String)
    (hall : ∀ t ∈ steps, t.callsNext = true ∧ t.awaitsNext = true ∧
      t.after = id ∧ t.bodyCompletes = true)
    (hnone : (Router.match router method url).1 = none) :
    ∃ hs, (handleRequest steps router method url).flushed
      = some (404, hs, some "Not Found") := by
  rcases hm : Router.match router method url with ⟨oh, ps⟩
  rw [hm] at hnone
  have hoh : oh = none := hnone
  subst hoh
  have htermdef : termSem router method url
      = { syncEff := fun c =>
            { c with
                params := ps,
                resp := { c.resp with
                            statusCode := 404,
                            responseBody := some "Not Found" } },
          restEff := id, resolves := true, deferred := [],
          started := 0, handlerStarted := false } := by
    unfold termSem
    rw [hm]
  obtain ⟨hres, heff⟩ := chainSem_runs_through steps (termSem router method url)
    hall (by rw [htermdef])
  refine ⟨((steps.foldl (fun c t => bodyEff t c) initCtx).resp.headers), ?_⟩
  have hflush : (handleRequest steps router method url).flushed
      = (if (chainSem steps (termSem router method url)).resolves
         then some (respTriple
           ((chainSem steps (termSem router method url)).restEff
             ((chainSem steps (termSem router method url)).syncEff initCtx)))
         else none) := rfl
  rw [hflush, if_pos hres, heff initCtx, htermdef]
  rfl

/-- Witness for C4: a transparent step and no route for `GET /zzz` flushes
404 / "Not Found". -/
theorem no_route_flushes_404_witness :
    ∃ hs, (handleRequest [awaitStep] (Router.empty : Router Prog)
        "GET" "/zzz").flushed = some (404, hs, some "Not Found") :=
  no_route_flushes_404 [awaitStep] Router.empty "GET" "/zzz"
    (by
      intro t ht
      rw [List.mem_singleton] at ht
      subst ht
      exact ⟨rfl, rfl, rfl, rfl⟩)
    rfl

/-- A step that awaits `next` and then overwrites the status with 200. -/
def overwriteStatusStep : Step :=
  ⟨⟨id, none⟩, true, true, true,
    fun c => { c with resp := { c.resp with statusCode := 200 } }⟩

/-- **C4 (counterexample to the claim as stated).** Every step calls
`next` and no route matches, so the dispatcher sets 404 / "Not Found" —
but a step that mutates the response after its `next` resolves runs after
the terminal continuation, and the flushed response is 200, not 404. -/
theorem c4_counterexample :
    (handleRequest [overwriteStatusStep] (Router.empty : Router Prog)
        "GET" "/nope").flushed = some (200, [], some "Not Found") ∧
    ∀ hs, (handleRequest [overwriteStatusStep] (Router.empty : Router Prog)
        "GET" "/nope").flushed ≠ some (404, hs, some "Not Found") := by
  refine ⟨rfl, fun hs h => ?_⟩
  rw [show (handleRequest [overwriteStatusStep] (Router.empty : Router Prog)
      "GET" "/nope").flushed = some (200, [], some "Not Found") from rfl] at h
  simp at h

/-! ### `jsonMiddleware` (C8) -/

/-- The error payload `{ error: "Invalid JSON" }`. -/
def jsonErrorBody : Json := .obj [("error", .str "Invalid JSON")]

/-- A pass-through step: no effects, `next()` fired without await (the two
early-return branches of `jsonMiddleware`). -/
def passStep : Step := ⟨⟨id, none⟩, true, true, false, id⟩

/-- Does `needle` occur at the very start of `hay`? -/
def startsHere (needle hay : List Char) : Bool :=
  needle == hay.take needle.length

/-- JS `String.prototype.includes`: does `needle` occur anywhere in `hay`? -/
def occursIn (needle hay : List Char) : Bool :=
  match hay with
  | [] => startsHere needle []
  | _ :: t => startsHere needle hay || occursIn needle t

/-- `jsonMiddleware()`, specialised to one request: `GET` / `HEAD` pass
straight through; other methods whose `content-type` includes
`application/json` set `req.body = null`, suspend to drain the stream, and
on the `end` event parse the accumulated text — an empty body leaves
`req.body` null, valid JSON is stored, and invalid JSON writes
`status(400).json({ error: "Invalid JSON" })` and then returns from the
`end` callback *without calling `resolve()`*, so the middleware's awaited
promise never settles (`bodyCompletes = false`). After a completed body it
calls `next()` (without awaiting it). Other content types pass through. -/
def jsonMW (engine : Engine) (method : String) (contentType : Option String)
    (rawBody : String) : Step :=
  if method == "GET" || method == "HEAD" then passStep
  else if (match contentType with
           | some ct => occursIn "application/json".data ct.data
           | none => false) then
    { body := ⟨fun c => { c with reqBody := none },
        some (fun c =>
          if rawBody == "" then { c with reqBody := none }
          else
            match Json.parse rawBody with
            | some v => { c with reqBody := some v }
            | none =>
              { c with
                  resp := applyOps engine c.resp
                    [.status 400, .json jsonErrorBody] })⟩,
      bodyCompletes := (rawBody == "" || (Json.parse rawBody).isSome),
      callsNext := true,
      awaitsNext := false,
      after := id }
  else passStep

/-- **C8.** On a `POST` with `Content-Type: application/json` and the
malformed body `"{"`, `jsonMiddleware` writes status 400 with the JSON
error payload into the response context — but the promise it awaits never
resolves, so the dispatcher never flushes anything: the 400 response never
reaches the client. -/
theorem jsonMiddleware_invalid_json_never_flushes :
    (handleRequest [jsonMW engineFail "POST" (some "application/json") "\x7b"]
        (Router.empty : Router Prog) "POST" "/x").flushed = none ∧
    ((handleRequest [jsonMW engineFail "POST" (some "application/json") "\x7b"]
        (Router.empty : Router Prog) "POST" "/x").final).resp.statusCode = 400 ∧
    ((handleRequest [jsonMW engineFail "POST" (some "application/json") "\x7b"]
        (Router.empty : Router Prog) "POST" "/x").final).resp.responseBody
      = some "\x7b\"error\":\"Invalid JSON\"\x7d" ∧
    assocGet ((handleRequest [jsonMW engineFail "POST" (some "application/json")
        "\x7b"] (Router.empty : Router Prog) "POST" "/x").final).resp.headers
        "Content-Type" = some "application/json" ∧
    (handleRequest [jsonMW engineFail "POST" (some "application/json") "\x7b"]
        (Router.empty : Router Prog) "POST" "/x").handlerStarted = false :=
  ⟨rfl, rfl, rfl, rfl, rfl⟩

end Bonfire
